import Mathlib

/-!
# Verification of the MIRIX raw-memory CRUD engine

A shallow embedding of `mirix/services/raw_memory_manager.py` (class
`RawMemoryManager`) and the parts of `mirix/schemas/raw_memory.py` and
`mirix/services/user_manager.py` it relies on, together with proofs of the
specification's claims about creates, reads, updates, deletes and
cursor-paginated search.

Modelling conventions:
* Python `str` is Lean `String`; timestamps (`datetime`) are `Nat` (an abstract
  time axis; `isoformat`/`fromisoformat` become an injective decimal
  serialization, see `natSerialize` below).
* Python dicts used as tag maps are association lists (`Tags`), read through
  `List.lookup`; a dict's `None`/`{}` distinction collapses to `[]`, which has
  the same behavior under every read the manager performs (`(tags or
  {}).get(k)`).
* Embedding vectors (`list[float]`) are `List Int`: every claim about them
  concerns only their length, never float arithmetic.
* The relational store is a `DB` value holding the user and raw-memory tables;
  a transaction that raises before commit leaves the `DB` unchanged, matching
  the rollback semantics the manager relies on.
* No cache provider is registered: the spec makes "no cache configured" a
  first-class, fully supported state, and every cache block in the manager is
  then a no-op, so the cache code contributes nothing to the modelled paths.
* Exceptions are an `Err` value distinguishing the exception class
  (`ValueError` / `NoResultFound` / `TypeError`) and carrying the message.
-/

namespace Mirix

/-- Filter-tag dictionaries: string-keyed association lists read via
`List.lookup` (first binding wins, so consing a key shadows older bindings,
matching a Python dict update for every later lookup). -/
abbrev Tags := List (String × String)

/-- Exceptions surfaced by the manager: the Python exception class plus its
message. `noResultFound` is `mirix.orm.errors.NoResultFound`. -/
inductive Err where
  | valueError (msg : String)
  | noResultFound (msg : String)
  | typeError (msg : String)
deriving DecidableEq, Repr

/-- The actor identity (`mirix.schemas.client.Client`): the fields the manager
reads. -/
structure Client where
  id : String
  organization_id : String
  scope : String
deriving DecidableEq, Repr

/-- A user row (`mirix.schemas.user.User` / the `users` table): the fields
`create_raw_memory` passes when auto-provisioning. -/
structure UserRec where
  id : String
  name : String
  organization_id : String
  timezone : String
  status : String
  is_deleted : Bool
  is_admin : Bool
deriving DecidableEq, Repr

/-- A raw-memory row (`mirix.orm.raw_memory.RawMemory` and its Pydantic view
`RawMemoryItem`, which expose the same fields). `last_modify` is split into
its `timestamp` and `operation` components. -/
structure RawMem where
  id : String
  context : String
  filter_tags : Tags
  user_id : String
  organization_id : String
  context_embedding : Option (List Int)
  embedding_config : Option String
  occurred_at : Nat
  created_at : Nat
  updated_at : Nat
  last_modify_timestamp : Nat
  last_modify_operation : String
  created_by_id : Option String
  last_updated_by_id : Option String
deriving DecidableEq, Repr

/-- The relational store: the two tables the raw-memory engine touches. `id`
is the primary key of both tables; theorems that need uniqueness take it as a
`Nodup` hypothesis. -/
structure DB where
  users : List UserRec
  memories : List RawMem
deriving DecidableEq, Repr

/-- The payload of `create_raw_memory` (`RawMemoryItemCreate`): `id`,
`filter_tags` and `occurred_at` are optional; `context` is a required string
(which may still be empty, the manager checks that itself). The schema's
`user_id`/`organization_id` fields are overwritten by the manager from its own
arguments, so they are not carried here. -/
structure RawMemoryItemCreate where
  context : String
  filter_tags : Option Tags
  id : Option String
  occurred_at : Option Nat
deriving DecidableEq, Repr

/-- `MAX_EMBEDDING_DIM`. Modelled from the spec: the constant lives in
`mirix/constants.py`, which is not part of the sources; the spec only says
embeddings are padded/truncated to a fixed maximum dimension. The value used
upstream is 4096; no claim depends on the particular value. -/
def MAX_EMBEDDING_DIM : Nat := 4096

/-- `RawMemoryItem.pad_embeddings` applied to a bare list (the manager calls
the validator directly on the embedding it just computed). Mirrors
`if embedding and len(embedding) != MAX_EMBEDDING_DIM: np.pad(embedding,
(0, MAX_EMBEDDING_DIM - len(embedding)))`: an empty list is falsy and returned
unchanged; `np.pad` with a negative pad width (input longer than the maximum)
raises `ValueError`, it never truncates. -/
def padEmbList (e : List Int) : Except String (List Int) :=
  if e ≠ [] ∧ e.length ≠ MAX_EMBEDDING_DIM then
    if e.length ≤ MAX_EMBEDDING_DIM then
      .ok (e ++ List.replicate (MAX_EMBEDDING_DIM - e.length) 0)
    else
      .error "index can't contain negative values"
  else
    .ok e

/-- The `pad_embeddings` field validator as Pydantic runs it on the optional
`context_embedding` field (`None` is passed through). -/
def pad_embeddings (e : Option (List Int)) : Except String (Option (List Int)) :=
  match e with
  | none => .ok none
  | some l => (padEmbList l).map some

/-- The `NoResultFound` message used uniformly by `get_raw_memory_by_id` for
"absent", "scope mismatch" and "user mismatch". -/
def notFoundErr (memory_id : String) : Err :=
  .noResultFound ("Raw memory record with id " ++ memory_id ++ " not found.")

/-- Modelled from the spec: `RawMemory.read(db_session, identifier, actor)`
(the ORM base-class read, not under `src/`) performs an organization-scoped
lookup — it returns the row whose `id` matches and whose `organization_id`
equals the actor's, and raises `NoResultFound` (here: `none`) otherwise. -/
def RawMemory.read (db : DB) (identifier : String) (actor : Client) : Option RawMem :=
  db.memories.find? (fun m => m.id == identifier && m.organization_id == actor.organization_id)

/-- `UserManager.get_user_by_id` as a lookup on the users table
(`UserModel.read` is id-only, users are not organization-filtered here). -/
def getUserById (db : DB) (user_id : String) : Option UserRec :=
  db.users.find? (fun u => u.id == user_id)

/-- The minimal active user `create_raw_memory` auto-provisions for an unknown
`user_id` (name defaults to the id, timezone to
`UserManager.DEFAULT_TIME_ZONE`). -/
def autoUser (user_id : String) (actor : Client) : UserRec :=
  { id := user_id
    name := user_id
    organization_id := actor.organization_id
    timezone := "UTC (UTC+00:00)"
    status := "active"
    is_deleted := false
    is_admin := false }

/-- `RawMemoryManager.create_raw_memory`.

External collaborators are passed as explicit inputs: `buildEmbeddings` is the
`BUILD_EMBEDDINGS_FOR_MEMORY` constant, `agentStatePresent` whether an
`agent_state` was supplied, `embedResult`/`embedCfg` the outcome of the
embedding collaborator (`none` models `get_text_embedding` raising),
`client_id` the optional client id, `genId` the fresh id
`generate_unique_short_id` would produce, and `now` the current time.

Auto-provisioning a user commits in its own session (`UserManager.create_user`
opens `with self.session_maker() as session`), so a later failure of the
create leaves the new user in place: the failure branches return the state
with the users table already updated. -/
def create_raw_memory (db : DB) (raw : RawMemoryItemCreate) (actor : Client)
    (user_id : String) (buildEmbeddings agentStatePresent : Bool)
    (embedResult : Option (List Int)) (embedCfg : Option String)
    (client_id : Option String) (genId : String) (now : Nat) :
    Except Err RawMem × DB :=
  -- `if not user_id: raise ValueError(...)`
  if user_id = "" then
    (.error (.valueError "user_id is required for create_raw_memory"), db)
  else
    -- `if client_id is None: client_id = actor.id`
    let clientId := client_id.getD actor.id
    -- auto-create the user if `get_user_by_id` raises `NoResultFound`
    let users' := match getUserById db user_id with
      | some _ => db.users
      | none => db.users ++ [autoUser user_id actor]
    let db1 : DB := { db with users := users' }
    -- `if not raw_memory.id:` (`None` and the empty string are both falsy)
    let theId := match raw.id with
      | some i => if i = "" then genId else i
      | none => genId
    -- `if raw_memory.filter_tags is None: ... = {}` then
    -- `raw_memory.filter_tags["scope"] = actor.scope`
    let tags : Tags := ("scope", actor.scope) :: raw.filter_tags.getD []
    -- embedding generation is best-effort: any exception (including the
    -- negative `np.pad` inside `pad_embeddings`) is caught and both fields
    -- are set to `None`
    let embPair : Option (List Int) × Option String :=
      if buildEmbeddings ∧ agentStatePresent then
        match embedResult with
        | some e =>
          match padEmbList e with
          | .ok p => (some p, embedCfg)
          | .error _ => (none, none)
        | none => (none, none)
      else (none, none)
    -- timestamps default to now when unset (`created_at`/`updated_at` are not
    -- fields of the create schema, so they are always defaulted)
    let occurred := raw.occurred_at.getD now
    -- `if not raw_memory_dict.get("context"): raise ValueError(...)`
    if raw.context = "" then
      (.error (.valueError "Required field 'context' is missing or empty"), db1)
    else
      let mem : RawMem :=
        { id := theId
          context := raw.context
          filter_tags := tags
          user_id := user_id
          organization_id := actor.organization_id
          context_embedding := embPair.1
          embedding_config := embPair.2
          occurred_at := occurred
          created_at := now
          updated_at := now
          last_modify_timestamp := now
          last_modify_operation := "created"
          created_by_id := some clientId
          last_updated_by_id := none }
      (.ok mem, { db1 with memories := db1.memories ++ [mem] })

/-- `RawMemoryManager.get_raw_memory_by_id` with no cache provider registered
(the cache block is then a no-op and the store path runs): an org-scoped read,
then the scope check, then the user check; all three failures raise the same
`NoResultFound` with the same message. `if user_id and ...` skips the user
check when the supplied id is empty (falsy). -/
def get_raw_memory_by_id (db : DB) (memory_id : String) (actor : Client)
    (user_id : Option String) : Except Err RawMem :=
  match RawMemory.read db memory_id actor with
  | none => .error (notFoundErr memory_id)
  | some m =>
    if m.filter_tags.lookup "scope" ≠ some actor.scope then
      .error (notFoundErr memory_id)
    else if user_id.getD "" ≠ "" ∧ m.user_id ≠ user_id.getD "" then
      .error (notFoundErr memory_id)
    else
      .ok m

/-- How Python renders the optional stored scope inside the access-denied
f-strings (`None` prints as `"None"`). -/
def scopeRepr (s : Option String) : String :=
  match s with
  | some v => v
  | none => "None"

/-- The access-denied message of the update path's organization check. -/
def orgDeniedMsg (memory_id morg aorg : String) : String :=
  "Access denied: memory " ++ memory_id ++ " belongs to organization " ++
    morg ++ ", actor belongs to " ++ aorg

/-- The access-denied message of the scope check (same text on the update and
delete paths). -/
def scopeDeniedMsg (memory_id : String) (mscope : Option String) (ascope : String) : String :=
  "Access denied: memory " ++ memory_id ++ " has scope '" ++ scopeRepr mscope ++
    "', actor has scope '" ++ ascope ++ "'"

/-- `RawMemoryManager.update_raw_memory`.

The row is looked up by id alone (`select ... where id == memory_id`, locked
`FOR UPDATE`); organization, scope and user are then checked explicitly.  A
raise before `session.commit()` rolls the transaction back, so every failure
branch returns the store unchanged.  Context modes: `"append"` concatenates
with a blank line, anything else replaces; tag modes: `"merge"` shallow-merges
the new keys over the existing ones, anything else replaces the map,
re-injecting the preserved original scope when that value is truthy.
Embedding regeneration is attempted only when embeddings are enabled, an
agent state is present and the context changed; any failure (embedding call or
`pad_embeddings`) leaves the stored embedding untouched. -/
def update_raw_memory (db : DB) (memory_id : String) (actor : Client)
    (new_context : Option String) (new_filter_tags : Option Tags)
    (buildEmbeddings agentStatePresent : Bool)
    (embedResult : Option (List Int)) (embedCfg : Option String)
    (context_update_mode tags_merge_mode : String)
    (user_id : Option String) (now : Nat) : Except Err RawMem × DB :=
  match db.memories.find? (fun m => m.id == memory_id) with
  | none => (.error (.valueError ("Raw memory " ++ memory_id ++ " not found")), db)
  | some m =>
    if m.organization_id ≠ actor.organization_id then
      (.error (.valueError (orgDeniedMsg memory_id m.organization_id actor.organization_id)), db)
    else if m.filter_tags.lookup "scope" ≠ some actor.scope then
      (.error (.valueError
        (scopeDeniedMsg memory_id (m.filter_tags.lookup "scope") actor.scope)), db)
    else if user_id.getD "" ≠ "" ∧ m.user_id ≠ user_id.getD "" then
      (.error (.valueError ("Raw memory " ++ memory_id ++ " not found")), db)
    else if (new_filter_tags.getD []).lookup "scope" ≠ none ∧
        (new_filter_tags.getD []).lookup "scope" ≠ some actor.scope then
      (.error (.valueError "Cannot change memory scope - scope must match actor.scope"), db)
    else
      let ctx := match new_context with
        | some nc =>
          if context_update_mode = "append" then m.context ++ "\n\n" ++ nc else nc
        | none => m.context
      let tags := match new_filter_tags with
        | some nft =>
          if tags_merge_mode = "merge" then
            -- `{**existing_tags, **new_filter_tags}`: a new binding wins
            nft ++ m.filter_tags
          else
            -- replace, re-injecting the preserved scope when truthy
            match m.filter_tags.lookup "scope" with
            | some s => if s ≠ "" then ("scope", s) :: nft else nft
            | none => nft
        | none => m.filter_tags
      let embPair : Option (List Int) × Option String :=
        if buildEmbeddings ∧ agentStatePresent ∧ new_context.isSome then
          match embedResult with
          | some e =>
            match padEmbList e with
            | .ok p => (some p, embedCfg)
            | .error _ => (m.context_embedding, m.embedding_config)
          | none => (m.context_embedding, m.embedding_config)
        else (m.context_embedding, m.embedding_config)
      let m' : RawMem :=
        { m with
          context := ctx
          filter_tags := tags
          context_embedding := embPair.1
          embedding_config := embPair.2
          updated_at := now
          last_modify_timestamp := now
          last_modify_operation := "updated"
          last_updated_by_id := some actor.id }
      (.ok m', { db with memories := db.memories.map (fun x => if x.id == memory_id then m' else x) })

/-- `RawMemoryManager.delete_raw_memory`: org-scoped read (absent ⇒ `False`),
scope mismatch raises the access-denied `ValueError`, a supplied mismatching
`user_id` returns `False`, otherwise the row is hard-deleted and the call
returns `True`. -/
def delete_raw_memory (db : DB) (memory_id : String) (actor : Client)
    (user_id : Option String) : Except Err Bool × DB :=
  match RawMemory.read db memory_id actor with
  | none => (.ok false, db)
  | some m =>
    if m.filter_tags.lookup "scope" ≠ some actor.scope then
      (.error (.valueError
        (scopeDeniedMsg memory_id (m.filter_tags.lookup "scope") actor.scope)), db)
    else if user_id.getD "" ≠ "" ∧ m.user_id ≠ user_id.getD "" then
      (.ok false, db)
    else
      (.ok true, { db with memories := db.memories.erase m })

/-! ## Helper lemmas on tag lookups -/

theorem lookup_cons_self {v : String} {t : Tags} {k : String} :
    List.lookup k ((k, v) :: t) = some v := by
  simp [List.lookup]

theorem lookup_cons_ne {k' v : String} {t : Tags} {k : String} (h : k ≠ k') :
    List.lookup k ((k', v) :: t) = List.lookup k t := by
  have hb : (k == k') = false := beq_eq_false_iff_ne.mpr h
  simp [List.lookup, hb]

theorem lookup_append (l₁ l₂ : Tags) (k : String) :
    List.lookup k (l₁ ++ l₂) =
      match List.lookup k l₁ with
      | some v => some v
      | none => List.lookup k l₂ := by
  induction l₁ with
  | nil => simp [List.lookup]
  | cons p rest ih =>
    by_cases h : k = p.1
    · subst h
      simp [List.lookup]
    · rcases p with ⟨k', v⟩
      simp only [List.cons_append, List.lookup, beq_eq_false_iff_ne.mpr h]
      exact ih

/-! ## Concrete fixtures used by the witnesses -/

/-- An actor of organization `org-1` and scope `CARE`. -/
def actorA : Client := { id := "client-1", organization_id := "org-1", scope := "CARE" }

/-- An actor of the same organization but scope `OPS`. -/
def actorB : Client := { id := "client-2", organization_id := "org-1", scope := "OPS" }

/-- A stored record of scope `CARE` in `org-1`, owned by `user-1`. -/
def memX : RawMem :=
  { id := "raw_mem_x"
    context := "c1"
    filter_tags := [("scope", "CARE"), ("priority", "high")]
    user_id := "user-1"
    organization_id := "org-1"
    context_embedding := none
    embedding_config := none
    occurred_at := 5
    created_at := 5
    updated_at := 5
    last_modify_timestamp := 5
    last_modify_operation := "created"
    created_by_id := some "client-1"
    last_updated_by_id := none }

/-- A store holding just `memX` and its owner. -/
def dbX : DB :=
  { users := [autoUser "user-1" actorA], memories := [memX] }

/-- The empty store. -/
def dbEmpty : DB := { users := [], memories := [] }

/-- A create payload that tries to smuggle in a foreign `scope` tag. -/
def rawSmuggle : RawMemoryItemCreate :=
  { context := "hello"
    filter_tags := some [("scope", "EVIL"), ("priority", "high")]
    id := none
    occurred_at := none }

/-!
## C1 — scope injection on create

For every call to `create_raw_memory`, regardless of any caller-supplied
`filter_tags["scope"]` (or an entirely absent `filter_tags`), the stored
record's `filter_tags` carries `scope = actor.scope`.
-/

/-! ## C1 -/

theorem create_raw_memory_scope_injection
    (db : DB) (raw : RawMemoryItemCreate) (actor : Client) (user_id : String)
    (be asp : Bool) (er : Option (List Int)) (ec : Option String)
    (cid : Option String) (genId : String) (now : Nat) (it : RawMem) (db' : DB)
    (h : create_raw_memory db raw actor user_id be asp er ec cid genId now = (.ok it, db')) :
    it.filter_tags.lookup "scope" = some actor.scope ∧
      db'.memories = db.memories ++ [it] := by
  unfold create_raw_memory at h
  split at h
  · simp at h
  · dsimp only at h
    split at h
    · simp at h
    · rw [Prod.mk.injEq] at h
      obtain ⟨hl, hr⟩ := h
      rw [Except.ok.injEq] at hl
      subst hl
      subst hr
      exact ⟨lookup_cons_self, rfl⟩

def memG : RawMem :=
  { id := "raw_mem_g"
    context := "hello"
    filter_tags := [("scope", "CARE"), ("scope", "EVIL"), ("priority", "high")]
    user_id := "user-1"
    organization_id := "org-1"
    context_embedding := none
    embedding_config := none
    occurred_at := 7
    created_at := 7
    updated_at := 7
    last_modify_timestamp := 7
    last_modify_operation := "created"
    created_by_id := some "client-1"
    last_updated_by_id := none }

def dbG : DB := { users := [autoUser "user-1" actorA], memories := [memG] }

theorem create_raw_memory_scope_injection_witness :
    memG.filter_tags.lookup "scope" = some actorA.scope ∧
      dbG.memories = dbEmpty.memories ++ [memG] :=
  create_raw_memory_scope_injection dbEmpty rawSmuggle actorA "user-1" false false
    none none none "raw_mem_g" 7 memG dbG rfl

/-! ## C3 -/

theorem get_raw_memory_by_id_notfound_indistinguishable
    (db : DB) (memory_id : String) (actor : Client) (u : Option String) :
    (RawMemory.read db memory_id actor = none →
      get_raw_memory_by_id db memory_id actor u = .error (notFoundErr memory_id)) ∧
    (∀ m, RawMemory.read db memory_id actor = some m →
      m.filter_tags.lookup "scope" ≠ some actor.scope →
      get_raw_memory_by_id db memory_id actor u = .error (notFoundErr memory_id)) ∧
    (∀ m uid, RawMemory.read db memory_id actor = some m →
      m.filter_tags.lookup "scope" = some actor.scope →
      u = some uid → uid ≠ "" → m.user_id ≠ uid →
      get_raw_memory_by_id db memory_id actor u = .error (notFoundErr memory_id)) := by
  refine ⟨?_, ?_, ?_⟩
  · intro hread
    unfold get_raw_memory_by_id
    rw [hread]
  · intro m hread hscope
    unfold get_raw_memory_by_id
    rw [hread]
    dsimp only
    rw [if_pos hscope]
  · intro m uid hread hscope hu huid hmm
    subst hu
    unfold get_raw_memory_by_id
    rw [hread]
    dsimp only
    rw [if_neg (by simp [hscope]), if_pos ⟨huid, hmm⟩]

theorem get_raw_memory_by_id_notfound_indistinguishable_witness :
    get_raw_memory_by_id dbEmpty "raw_mem_x" actorA none = .error (notFoundErr "raw_mem_x") ∧
    get_raw_memory_by_id dbX "raw_mem_x" actorB none = .error (notFoundErr "raw_mem_x") ∧
    get_raw_memory_by_id dbX "raw_mem_x" actorA (some "user-2") = .error (notFoundErr "raw_mem_x") :=
  ⟨(get_raw_memory_by_id_notfound_indistinguishable dbEmpty "raw_mem_x" actorA none).1 (by decide),
   (get_raw_memory_by_id_notfound_indistinguishable dbX "raw_mem_x" actorB none).2.1 memX
     (by decide) (by decide),
   (get_raw_memory_by_id_notfound_indistinguishable dbX "raw_mem_x" actorA
     (some "user-2")).2.2 memX "user-2" (by decide) (by decide) rfl (by decide) (by decide)⟩

/-! ## C4 -/

theorem update_raw_memory_scope_immutable
    (db : DB) (actor : Client) (m : RawMem)
    (hfind : db.memories.find? (fun x => x.id == m.id) = some m)
    (horg : m.organization_id = actor.organization_id)
    (hscope : m.filter_tags.lookup "scope" = some actor.scope)
    (u : Option String) (huser : u.getD "" = "" ∨ m.user_id = u.getD "")
    (nft : Tags) (s : String) (hs : nft.lookup "scope" = some s) (hne : s ≠ actor.scope)
    (nc : Option String) (be asp : Bool) (er : Option (List Int)) (ec : Option String)
    (cum tmm : String) (now : Nat) :
    update_raw_memory db m.id actor nc (some nft) be asp er ec cum tmm u now =
      (.error (.valueError "Cannot change memory scope - scope must match actor.scope"), db) := by
  unfold update_raw_memory
  rw [hfind]
  dsimp only
  rw [if_neg (by simp [horg]), if_neg (by simp [hscope]),
    if_neg (by rcases huser with h | h
               · exact fun hc => hc.1 h
               · exact fun hc => hc.2 h),
    if_pos ⟨by simp [hs], by simp [hs]; exact hne⟩]

theorem update_raw_memory_scope_immutable_witness :
    update_raw_memory dbX "raw_mem_x" actorA none (some [("scope", "EVIL")]) false false
      none none "replace" "replace" none 9 =
      (.error (.valueError "Cannot change memory scope - scope must match actor.scope"), dbX) :=
  update_raw_memory_scope_immutable dbX actorA memX (by decide) rfl (by decide)
    none (Or.inl rfl) [("scope", "EVIL")] "EVIL" (by decide) (by decide)
    none false false none none "replace" "replace" 9

/-! ## C5 -/

theorem update_raw_memory_tags_replace_merge
    (db : DB) (actor : Client) (m : RawMem)
    (hfind : db.memories.find? (fun x => x.id == m.id) = some m)
    (horg : m.organization_id = actor.organization_id)
    (hscope : m.filter_tags.lookup "scope" = some actor.scope)
    (hscopeTruthy : actor.scope ≠ "")
    (u : Option String) (huser : u.getD "" = "" ∨ m.user_id = u.getD "")
    (nc : Option String) (be asp : Bool) (er : Option (List Int)) (ec : Option String)
    (cum : String) (now : Nat) :
    (∀ nft : Tags, nft.lookup "scope" = none →
      ∃ r db', update_raw_memory db m.id actor nc (some nft) be asp er ec cum "replace" u now
          = (.ok r, db') ∧
        ∀ k, r.filter_tags.lookup k =
          if k = "scope" then some actor.scope else nft.lookup k) ∧
    (∀ nft : Tags,
      nft.lookup "scope" = none ∨ nft.lookup "scope" = some actor.scope →
      ∃ r db', update_raw_memory db m.id actor nc (some nft) be asp er ec cum "merge" u now
          = (.ok r, db') ∧
        ∀ k, r.filter_tags.lookup k =
          match nft.lookup k with
          | some v => some v
          | none => m.filter_tags.lookup k) := by
  have huser' : ¬ (u.getD "" ≠ "" ∧ m.user_id ≠ u.getD "") := by
    rcases huser with h | h
    · exact fun hc => hc.1 h
    · exact fun hc => hc.2 h
  constructor
  · intro nft hnoscope
    unfold update_raw_memory
    rw [hfind]
    dsimp only
    rw [if_neg (by simp [horg]), if_neg (by simp [hscope]), if_neg huser',
      if_neg (by simp [hnoscope])]
    refine ⟨_, _, rfl, ?_⟩
    intro k
    dsimp only
    rw [if_neg (show ¬("replace" = "merge") by decide), hscope]
    dsimp only
    rw [if_pos hscopeTruthy]
    by_cases hk : k = "scope"
    · subst hk
      rw [lookup_cons_self, if_pos rfl]
    · rw [lookup_cons_ne hk, if_neg hk]
  · intro nft hsc
    unfold update_raw_memory
    rw [hfind]
    dsimp only
    rw [if_neg (by simp [horg]), if_neg (by simp [hscope]), if_neg huser',
      if_neg (by rcases hsc with h | h <;> simp [h])]
    refine ⟨_, _, rfl, ?_⟩
    intro k
    dsimp only
    rw [if_pos rfl]
    exact lookup_append nft m.filter_tags k

theorem update_raw_memory_tags_replace_merge_witness :
    (∃ r db', update_raw_memory dbX "raw_mem_x" actorA none (some [("x", "1")]) false false
        none none "replace" "replace" none 9 = (.ok r, db') ∧
      ∀ k, r.filter_tags.lookup k =
        if k = "scope" then some actorA.scope else List.lookup k [("x", "1")]) ∧
    (∃ r db', update_raw_memory dbX "raw_mem_x" actorA none (some [("y", "2")]) false false
        none none "replace" "merge" none 9 = (.ok r, db') ∧
      ∀ k, r.filter_tags.lookup k =
        match List.lookup k [("y", "2")] with
        | some v => some v
        | none => memX.filter_tags.lookup k) :=
  ⟨(update_raw_memory_tags_replace_merge dbX actorA memX (by decide) rfl (by decide)
      (by decide) none (Or.inl rfl) none false false none none "replace" 9).1
      [("x", "1")] (by decide),
   (update_raw_memory_tags_replace_merge dbX actorA memX (by decide) rfl (by decide)
      (by decide) none (Or.inl rfl) none false false none none "replace" 9).2
      [("y", "2")] (Or.inl (by decide))⟩

/-! ## C6 -/

theorem delete_raw_memory_cases
    (db : DB) (memory_id : String) (actor : Client) (u : Option String) :
    (RawMemory.read db memory_id actor = none →
      delete_raw_memory db memory_id actor u = (.ok false, db)) ∧
    (∀ m, RawMemory.read db memory_id actor = some m →
      m.filter_tags.lookup "scope" ≠ some actor.scope →
      delete_raw_memory db memory_id actor u =
        (.error (.valueError
          (scopeDeniedMsg memory_id (m.filter_tags.lookup "scope") actor.scope)), db)) ∧
    (∀ m uid, RawMemory.read db memory_id actor = some m →
      m.filter_tags.lookup "scope" = some actor.scope →
      u = some uid → uid ≠ "" → m.user_id ≠ uid →
      delete_raw_memory db memory_id actor u = (.ok false, db)) ∧
    (∀ m, RawMemory.read db memory_id actor = some m →
      m.filter_tags.lookup "scope" = some actor.scope →
      (u.getD "" = "" ∨ m.user_id = u.getD "") →
      delete_raw_memory db memory_id actor u =
        (.ok true, { db with memories := db.memories.erase m })) ∧
    (∀ db2, delete_raw_memory db memory_id actor u = (.ok true, db2) →
      ∃ m, RawMemory.read db memory_id actor = some m ∧ m ∈ db.memories ∧
        db2.memories = db.memories.erase m) ∧
    (∀ db2, delete_raw_memory db memory_id actor u = (.ok false, db2) → db2 = db) := by
  refine ⟨?_, ?_, ?_, ?_, ?_, ?_⟩
  · intro hread
    unfold delete_raw_memory
    rw [hread]
  · intro m hread hscope
    unfold delete_raw_memory
    rw [hread]
    dsimp only
    rw [if_pos hscope]
  · intro m uid hread hscope hu huid hmm
    subst hu
    unfold delete_raw_memory
    rw [hread]
    dsimp only
    rw [if_neg (by simp [hscope]), if_pos ⟨huid, hmm⟩]
  · intro m hread hscope huser
    unfold delete_raw_memory
    rw [hread]
    dsimp only
    rw [if_neg (by simp [hscope]),
      if_neg (by rcases huser with h | h
                 · exact fun hc => hc.1 h
                 · exact fun hc => hc.2 h)]
  · intro db2 h
    unfold delete_raw_memory at h
    split at h
    · simp at h
    · rename_i m hread
      refine ⟨m, hread, List.mem_of_find?_eq_some hread, ?_⟩
      split at h
      · simp at h
      · split at h
        · simp at h
        · rw [Prod.mk.injEq] at h
          rw [← h.2]
  · intro db2 h
    unfold delete_raw_memory at h
    split at h
    · exact (Prod.mk.injEq _ _ _ _ ▸ h).2.symm
    · split at h
      · simp at h
      · split at h
        · exact (Prod.mk.injEq _ _ _ _ ▸ h).2.symm
        · simp at h

theorem delete_raw_memory_cases_witness :
    delete_raw_memory dbEmpty "raw_mem_x" actorA none = (.ok false, dbEmpty) ∧
    delete_raw_memory dbX "raw_mem_x" actorB none =
      (.error (.valueError (scopeDeniedMsg "raw_mem_x" (some "CARE") "OPS")), dbX) ∧
    delete_raw_memory dbX "raw_mem_x" actorA (some "user-2") = (.ok false, dbX) ∧
    delete_raw_memory dbX "raw_mem_x" actorA none =
      (.ok true, { dbX with memories := dbX.memories.erase memX }) :=
  ⟨(delete_raw_memory_cases dbEmpty "raw_mem_x" actorA none).1 (by decide),
   (delete_raw_memory_cases dbX "raw_mem_x" actorB none).2.1 memX (by decide) (by decide),
   (delete_raw_memory_cases dbX "raw_mem_x" actorA (some "user-2")).2.2.1 memX "user-2"
     (by decide) (by decide) rfl (by decide) (by decide),
   (delete_raw_memory_cases dbX "raw_mem_x" actorA none).2.2.2.1 memX
     (by decide) (by decide) (Or.inl rfl)⟩

/-! ## C9 -/

theorem padEmbList_ok (e p : List Int) (h : padEmbList e = .ok p) :
    p = [] ∨ p.length = MAX_EMBEDDING_DIM := by
  unfold padEmbList at h
  split at h
  · rename_i hcond
    split at h
    · rename_i hle
      rw [Except.ok.injEq] at h
      subst h
      right
      rw [List.length_append, List.length_replicate]
      omega
    · simp at h
  · rename_i hcond
    rw [Except.ok.injEq] at h
    subst h
    rcases not_and_or.mp hcond with h1 | h2
    · exact Or.inl (not_not.mp h1)
    · exact Or.inr (not_not.mp h2)

theorem pad_embeddings_dimension :
    (∀ e o, pad_embeddings e = .ok o →
      o = none ∨ o = some [] ∨ ∃ l, o = some l ∧ l.length = MAX_EMBEDDING_DIM) ∧
    (∀ l : List Int, MAX_EMBEDDING_DIM < l.length →
      pad_embeddings (some l) = .error "index can't contain negative values") ∧
    (∀ db raw actor user_id be asp er ec cid genId now it db',
      create_raw_memory db raw actor user_id be asp er ec cid genId now = (.ok it, db') →
      it.context_embedding = none ∨ it.context_embedding = some [] ∨
        ∃ l, it.context_embedding = some l ∧ l.length = MAX_EMBEDDING_DIM) := by
  refine ⟨?_, ?_, ?_⟩
  · intro e o h
    cases e with
    | none =>
      rw [pad_embeddings] at h
      rw [Except.ok.injEq] at h
      exact Or.inl h.symm
    | some l =>
      rw [pad_embeddings] at h
      cases hp : padEmbList l with
      | ok p =>
        rw [hp] at h
        simp only [Except.map, Except.ok.injEq] at h
        subst h
        rcases padEmbList_ok l p hp with h1 | h2
        · exact Or.inr (Or.inl (by rw [h1]))
        · exact Or.inr (Or.inr ⟨p, rfl, h2⟩)
      | error msg =>
        rw [hp] at h
        simp [Except.map] at h
  · intro l hlen
    have hne : l ≠ [] := by
      intro heq
      rw [heq] at hlen
      simp at hlen
    rw [pad_embeddings, padEmbList, if_pos ⟨hne, by omega⟩, if_neg (by omega)]
    rfl
  · intro db raw actor user_id be asp er ec cid genId now it db' h
    unfold create_raw_memory at h
    split at h
    · simp at h
    · dsimp only at h
      split at h
      · simp at h
      · rw [Prod.mk.injEq] at h
        obtain ⟨hl, hr⟩ := h
        rw [Except.ok.injEq] at hl
        subst hl
        dsimp only
        by_cases hba : be = true ∧ asp = true
        · rw [if_pos hba]
          cases er with
          | none => exact Or.inl rfl
          | some e =>
            dsimp only
            cases hp : padEmbList e with
            | ok p =>
              rcases padEmbList_ok e p hp with h1 | h2
              · exact Or.inr (Or.inl (by rw [h1]))
              · exact Or.inr (Or.inr ⟨p, rfl, h2⟩)
            | error msg =>
              exact Or.inl rfl
        · rw [if_neg hba]
          exact Or.inl rfl

/-- A well-formed create payload with no caller-supplied tags. -/
def rawHello : RawMemoryItemCreate :=
  { context := "hello", filter_tags := none, id := none, occurred_at := none }

theorem pad_embeddings_dimension_counterexample :
    pad_embeddings (some ([] : List Int)) = .ok (some []) ∧
    ([] : List Int).length ≠ MAX_EMBEDDING_DIM ∧
    (some ([] : List Int)) ≠ (none : Option (List Int)) ∧
    pad_embeddings (some (List.replicate (MAX_EMBEDDING_DIM + 1) (0 : Int))) =
      .error "index can't contain negative values" ∧
    (create_raw_memory dbEmpty rawHello actorA "user-1" true true (some []) (some "cfg")
        none "raw_mem_e" 7).1.map RawMem.context_embedding = .ok (some []) := by
  refine ⟨rfl, by decide, by decide, ?_, rfl⟩
  show (padEmbList (List.replicate (MAX_EMBEDDING_DIM + 1) (0 : Int))).map some = _
  unfold padEmbList
  rw [if_pos, if_neg]
  · rfl
  · rw [List.length_replicate]
    omega
  · refine ⟨?_, ?_⟩
    · intro hnil
      have hlen := congrArg List.length hnil
      rw [List.length_replicate] at hlen
      simp at hlen
    · rw [List.length_replicate]
      omega

theorem pad_embeddings_dimension_witness :
    pad_embeddings (some ([1, 2] : List Int)) =
      .ok (some ([1, 2] ++ List.replicate (MAX_EMBEDDING_DIM - 2) 0)) ∧
    ((2 : Nat) + (MAX_EMBEDDING_DIM - 2) = MAX_EMBEDDING_DIM) ∧
    pad_embeddings (some (List.replicate (MAX_EMBEDDING_DIM + 1) (0 : Int))) =
      .error "index can't contain negative values" :=
  ⟨by show (padEmbList ([1, 2] : List Int)).map some = _
      unfold padEmbList
      rw [if_pos ⟨by decide, by decide⟩, if_pos (by decide)]
      rfl
    , by decide
    , (pad_embeddings_dimension).2.1 (List.replicate (MAX_EMBEDDING_DIM + 1) 0)
        (by rw [List.length_replicate]; omega)⟩

/-! ## C10 -/

theorem create_raw_memory_autouser_persists
    (db : DB) (raw : RawMemoryItemCreate) (actor : Client) (user_id : String)
    (be asp : Bool) (er : Option (List Int)) (ec : Option String)
    (cid : Option String) (genId : String) (now : Nat)
    (hu : user_id ≠ "") (hnew : getUserById db user_id = none) (hctx : raw.context = "") :
    create_raw_memory db raw actor user_id be asp er ec cid genId now =
      (.error (.valueError "Required field 'context' is missing or empty"),
        { db with users := db.users ++ [autoUser user_id actor] }) := by
  unfold create_raw_memory
  rw [if_neg hu, hnew]
  dsimp only
  rw [if_pos hctx]

/-- A create payload whose `context` is empty. -/
def rawEmptyCtx : RawMemoryItemCreate :=
  { context := "", filter_tags := none, id := none, occurred_at := none }

theorem create_raw_memory_autouser_persists_witness :
    create_raw_memory dbEmpty rawEmptyCtx actorA "user-9" false false none none none
        "raw_mem_h" 7 =
      (.error (.valueError "Required field 'context' is missing or empty"),
        { users := [autoUser "user-9" actorA], memories := [] }) :=
  create_raw_memory_autouser_persists dbEmpty rawEmptyCtx actorA "user-9" false false
    none none none "raw_mem_h" 7 (by decide) rfl rfl

/-!
## Timestamp serialization

`datetime.isoformat`/`datetime.fromisoformat` on the abstract `Nat` time axis
become an injective decimal rendering and its parser: the cursor codec only
needs that serialization to round-trip and to reject non-timestamp strings
(`fromisoformat` raises `ValueError` on them).
-/

/-- Decimal digits of `n`, least significant first (empty for 0); fuelled so
that it reduces inside the kernel (`n` itself is always enough fuel, since the
digit count of `n` never exceeds `n`). -/
def digitsRevAux : Nat → Nat → List Char
  | 0, _ => []
  | fuel + 1, n => if n = 0 then [] else Char.ofNat (48 + n % 10) :: digitsRevAux fuel (n / 10)

def digitsRev (n : Nat) : List Char := digitsRevAux n n

/-- Decimal rendering of a timestamp (the model of `isoformat`). -/
def natSerialize (n : Nat) : List Char :=
  if n = 0 then ['0'] else (digitsRev n).reverse

def digitVal (c : Char) : Option Nat :=
  if '0' ≤ c ∧ c ≤ '9' then some (c.toNat - 48) else none

def natParseAux : List Char → Nat → Option Nat
  | [], acc => some acc
  | c :: rest, acc =>
    match digitVal c with
    | some d => natParseAux rest (acc * 10 + d)
    | none => none

/-- Parser of the decimal rendering (the model of `fromisoformat`); fails on
the empty string and on any non-digit character. -/
def natParse : List Char → Option Nat
  | [] => none
  | cs => natParseAux cs 0

theorem digitVal_digit (d : Nat) (h : d < 10) : digitVal (Char.ofNat (48 + d)) = some d := by
  interval_cases d <;> decide

theorem natParseAux_append (l₁ l₂ : List Char) (acc : Nat) :
    natParseAux (l₁ ++ l₂) acc =
      match natParseAux l₁ acc with
      | some a => natParseAux l₂ a
      | none => none := by
  induction l₁ generalizing acc with
  | nil => simp [natParseAux]
  | cons c rest ih =>
    simp only [List.cons_append, natParseAux]
    cases digitVal c with
    | some d => exact ih _
    | none => rfl

theorem natParseAux_digitsRevAux (fuel : Nat) :
    ∀ (n acc : Nat), n ≤ fuel →
      natParseAux (digitsRevAux fuel n).reverse acc =
        some (acc * 10 ^ (digitsRevAux fuel n).length + n) := by
  induction fuel with
  | zero =>
    intro n acc hf
    have hn : n = 0 := by omega
    subst hn
    simp [digitsRevAux, natParseAux]
  | succ f ih =>
    intro n acc hf
    rw [digitsRevAux]
    by_cases h : n = 0
    · subst h
      rw [if_pos rfl]
      simp [natParseAux]
    · rw [if_neg h, List.reverse_cons, natParseAux_append]
      have hrec : n / 10 ≤ f := by omega
      rw [ih (n / 10) acc hrec]
      have hd : digitVal (Char.ofNat (48 + n % 10)) = some (n % 10) :=
        digitVal_digit _ (Nat.mod_lt _ (by omega))
      simp only [natParseAux, hd, List.length_cons]
      congr 1
      have hmod := Nat.div_add_mod n 10
      ring_nf
      omega

theorem natParse_natSerialize (n : Nat) : natParse (natSerialize n) = some n := by
  unfold natSerialize
  by_cases h : n = 0
  · subst h
    decide
  · rw [if_neg h]
    have hne : (digitsRev n).reverse ≠ [] := by
      obtain ⟨k, rfl⟩ : ∃ k, n = k + 1 := ⟨n - 1, by omega⟩
      rw [digitsRev, digitsRevAux, if_neg h]
      simp
    rw [natParse.eq_def]
    split
    · rename_i heq
      exact absurd heq hne
    · rw [digitsRev, natParseAux_digitsRevAux n n 0 le_rfl]
      simp

/-!
## UTF-8

`str.encode()` / `bytes.decode()`.  The decoder rejects invalid start and
continuation bytes, surrogate code points and out-of-range code points like
CPython; it does not reject overlong encodings (a corner where it accepts
byte strings CPython would reject — it never fails where CPython succeeds on
the inputs the cursor codec handles).
-/

/-- UTF-8 encoding of one character (`str.encode()`). -/
def utf8EncodeChar (c : Char) : List Nat :=
  if c.toNat < 0x80 then [c.toNat]
  else if c.toNat < 0x800 then [0xC0 + c.toNat / 64, 0x80 + c.toNat % 64]
  else if c.toNat < 0x10000 then
    [0xE0 + c.toNat / 4096, 0x80 + c.toNat / 64 % 64, 0x80 + c.toNat % 64]
  else
    [0xF0 + c.toNat / 262144, 0x80 + c.toNat / 4096 % 64, 0x80 + c.toNat / 64 % 64,
      0x80 + c.toNat % 64]

def utf8Encode : List Char → List Nat
  | [] => []
  | c :: cs => utf8EncodeChar c ++ utf8Encode cs

/-- Is `b` a UTF-8 continuation byte? -/
def isCont (b : Nat) : Bool := 0x80 ≤ b && b < 0xC0

/-- Decode one code point: the char and how many continuation bytes of `rest`
it consumed. -/
def utf8Step (b : Nat) (rest : List Nat) : Except String (Char × Nat) :=
  if b < 0x80 then .ok (Char.ofNat b, 0)
  else if b < 0xC0 then .error "invalid start byte"
  else if b < 0xE0 then
    match rest with
    | c1 :: _ =>
      if isCont c1 then .ok (Char.ofNat ((b - 0xC0) * 64 + (c1 - 0x80)), 1)
      else .error "invalid continuation byte"
    | [] => .error "unexpected end of data"
  else if b < 0xF0 then
    match rest with
    | c1 :: c2 :: _ =>
      if isCont c1 && isCont c2 then
        if 0xD800 ≤ (b - 0xE0) * 4096 + (c1 - 0x80) * 64 + (c2 - 0x80) ∧
            (b - 0xE0) * 4096 + (c1 - 0x80) * 64 + (c2 - 0x80) < 0xE000 then
          .error "surrogates not allowed"
        else .ok (Char.ofNat ((b - 0xE0) * 4096 + (c1 - 0x80) * 64 + (c2 - 0x80)), 2)
      else .error "invalid continuation byte"
    | _ => .error "unexpected end of data"
  else if b < 0xF8 then
    match rest with
    | c1 :: c2 :: c3 :: _ =>
      if isCont c1 && isCont c2 && isCont c3 then
        if 0x10FFFF < (b - 0xF0) * 262144 + (c1 - 0x80) * 4096 + (c2 - 0x80) * 64 + (c3 - 0x80) ∨
            (0xD800 ≤ (b - 0xF0) * 262144 + (c1 - 0x80) * 4096 + (c2 - 0x80) * 64 + (c3 - 0x80) ∧
              (b - 0xF0) * 262144 + (c1 - 0x80) * 4096 + (c2 - 0x80) * 64 + (c3 - 0x80) < 0xE000) then
          .error "code point out of range"
        else
          .ok (Char.ofNat
            ((b - 0xF0) * 262144 + (c1 - 0x80) * 4096 + (c2 - 0x80) * 64 + (c3 - 0x80)), 3)
      else .error "invalid continuation byte"
    | _ => .error "unexpected end of data"
  else .error "invalid start byte"

/-- UTF-8 decoding, fuelled for kernel reducibility; the input length is
always enough fuel because every step consumes at least the start byte. -/
def utf8DecodeAux : Nat → List Nat → Except String (List Char)
  | _, [] => .ok []
  | 0, _ :: _ => .error "unexpected end of data"
  | fuel + 1, b :: rest =>
    match utf8Step b rest with
    | .error e => .error e
    | .ok (c, k) => (utf8DecodeAux fuel (rest.drop k)).map (c :: ·)

/-- UTF-8 decoding (`bytes.decode()`); errors model `UnicodeDecodeError`. -/
def utf8Decode (bs : List Nat) : Except String (List Char) := utf8DecodeAux bs.length bs

/-- At least one byte per character. -/
theorem le_length_utf8Encode (cs : List Char) : cs.length ≤ (utf8Encode cs).length := by
  induction cs with
  | nil => simp [utf8Encode]
  | cons c rest ih =>
    rw [utf8Encode, List.length_append, List.length_cons]
    have h1 : 1 ≤ (utf8EncodeChar c).length := by
      rw [utf8EncodeChar]
      repeat' split
      all_goals simp
    omega

theorem utf8DecodeAux_utf8Encode (cs : List Char) :
    ∀ fuel : Nat, (∀ c ∈ cs, c.toNat < 0x80) → cs.length ≤ fuel →
      utf8DecodeAux fuel (utf8Encode cs) = .ok cs := by
  induction cs with
  | nil =>
    intro fuel h hf
    rw [utf8Encode]
    cases fuel <;> rfl
  | cons c rest ih =>
    intro fuel h hf
    have hc : c.toNat < 0x80 := h c (List.mem_cons_self c rest)
    obtain ⟨f, rfl⟩ : ∃ f, fuel = f + 1 := ⟨fuel - 1, by simp at hf; omega⟩
    rw [utf8Encode, utf8EncodeChar, if_pos hc, List.cons_append, List.nil_append,
      utf8DecodeAux]
    rw [utf8Step.eq_def, if_pos hc]
    simp only [List.drop_zero]
    rw [ih f (fun x hx => h x (List.mem_cons_of_mem c hx)) (by simp at hf; omega)]
    rw [Except.map]
    congr 2
    exact Char.ofNat_toNat c

/-- ASCII strings round-trip through the UTF-8 codec. -/
theorem utf8Decode_utf8Encode (cs : List Char) (h : ∀ c ∈ cs, c.toNat < 0x80) :
    utf8Decode (utf8Encode cs) = .ok cs := by
  rw [utf8Decode]
  exact utf8DecodeAux_utf8Encode cs _ h (le_length_utf8Encode cs)

/-!
## Base64

`base64.b64encode` and `base64.b64decode` with its default `validate=False`
leniency: characters outside the alphabet are discarded before decoding, and
the quad/padding state machine mirrors CPython's `binascii.a2b_base64`
(non-strict mode): a `'='` closing a quad of 2 or 3 data characters ends the
decode, ignoring the rest of the input; a `'='` at quad position 0 or 1 is
skipped; leftover quad positions at the end of input raise `binascii.Error`
(a `ValueError` subclass).  Error messages are abridged.  The decoder works
directly on the cursor string's characters: `cursor.encode()` turns non-ASCII
characters into bytes ≥ 0x80, all of which the table discards, just as the
char-level filter does.
-/

/-- The base64 alphabet, index to character. -/
def b64Chr (k : Nat) : Char :=
  if k < 26 then Char.ofNat (65 + k)
  else if k < 52 then Char.ofNat (97 + (k - 26))
  else if k < 62 then Char.ofNat (48 + (k - 52))
  else if k = 62 then '+'
  else '/'

/-- The base64 alphabet, character to index (`none` for non-alphabet input). -/
def b64Val (c : Char) : Option Nat :=
  if 'A' ≤ c ∧ c ≤ 'Z' then some (c.toNat - 65)
  else if 'a' ≤ c ∧ c ≤ 'z' then some (c.toNat - 97 + 26)
  else if '0' ≤ c ∧ c ≤ '9' then some (c.toNat - 48 + 52)
  else if c = '+' then some 62
  else if c = '/' then some 63
  else none

/-- `base64.b64encode` on a byte list. -/
def b64EncodeChars : List Nat → List Char
  | [] => []
  | [b1] => [b64Chr (b1 / 4), b64Chr (b1 % 4 * 16), '=', '=']
  | [b1, b2] => [b64Chr (b1 / 4), b64Chr (b1 % 4 * 16 + b2 / 16), b64Chr (b2 % 16 * 4), '=']
  | b1 :: b2 :: b3 :: rest =>
    b64Chr (b1 / 4) :: b64Chr (b1 % 4 * 16 + b2 / 16) :: b64Chr (b2 % 16 * 4 + b3 / 64) ::
      b64Chr (b3 % 64) :: b64EncodeChars rest

/-- The `binascii.a2b_base64` state machine (non-strict): position inside the
current quad, pending bits, consecutive-pad count, reversed output. -/
def a2bBase64Loop : List Char → Nat → Nat → Nat → List Nat → Except String (List Nat)
  | [], quadPos, _, _, acc =>
    if quadPos = 0 then .ok acc.reverse
    else if quadPos = 1 then
      .error "Invalid base64-encoded string: number of data characters cannot be 1 more than a multiple of 4"
    else .error "Incorrect padding"
  | c :: rest, quadPos, leftchar, pads, acc =>
    if c = '=' then
      if 2 ≤ quadPos ∧ 4 ≤ quadPos + (pads + 1) then .ok acc.reverse
      else if 2 ≤ quadPos then a2bBase64Loop rest quadPos leftchar (pads + 1) acc
      else a2bBase64Loop rest quadPos leftchar pads acc
    else
      match b64Val c with
      | none => a2bBase64Loop rest quadPos leftchar pads acc
      | some v =>
        match quadPos with
        | 0 => a2bBase64Loop rest 1 v 0 acc
        | 1 => a2bBase64Loop rest 2 (v % 16) 0 ((leftchar * 4 + v / 16) :: acc)
        | 2 => a2bBase64Loop rest 3 (v % 4) 0 ((leftchar * 16 + v / 4) :: acc)
        | _ => a2bBase64Loop rest 0 0 0 ((leftchar * 64 + v) :: acc)

/-- `base64.b64decode(s)` (lenient, `validate=False`). -/
def b64Decode (cs : List Char) : Except String (List Nat) :=
  a2bBase64Loop cs 0 0 0 []

theorem b64Val_b64Chr_fin : ∀ k : Fin 64, b64Val (b64Chr k.val) = some k.val := by decide

theorem b64Chr_ne_pad_fin : ∀ k : Fin 64, b64Chr k.val ≠ '=' := by decide

theorem b64Val_b64Chr {k : Nat} (h : k < 64) : b64Val (b64Chr k) = some k :=
  b64Val_b64Chr_fin ⟨k, h⟩

theorem b64Chr_ne_pad {k : Nat} (h : k < 64) : b64Chr k ≠ '=' :=
  b64Chr_ne_pad_fin ⟨k, h⟩

/-- Stepping the decode loop over one in-alphabet sextet character, one lemma
per quad position. -/
theorem a2bLoop_data0 {c : Char} {v : Nat} (hne : c ≠ '=') (hv : b64Val c = some v)
    (rest : List Char) (leftchar pads : Nat) (acc : List Nat) :
    a2bBase64Loop (c :: rest) 0 leftchar pads acc = a2bBase64Loop rest 1 v 0 acc := by
  rw [a2bBase64Loop, if_neg hne, hv]

theorem a2bLoop_data1 {c : Char} {v : Nat} (hne : c ≠ '=') (hv : b64Val c = some v)
    (rest : List Char) (leftchar pads : Nat) (acc : List Nat) :
    a2bBase64Loop (c :: rest) 1 leftchar pads acc =
      a2bBase64Loop rest 2 (v % 16) 0 ((leftchar * 4 + v / 16) :: acc) := by
  rw [a2bBase64Loop, if_neg hne, hv]

theorem a2bLoop_data2 {c : Char} {v : Nat} (hne : c ≠ '=') (hv : b64Val c = some v)
    (rest : List Char) (leftchar pads : Nat) (acc : List Nat) :
    a2bBase64Loop (c :: rest) 2 leftchar pads acc =
      a2bBase64Loop rest 3 (v % 4) 0 ((leftchar * 16 + v / 4) :: acc) := by
  rw [a2bBase64Loop, if_neg hne, hv]

theorem a2bLoop_data3 {c : Char} {v : Nat} (hne : c ≠ '=') (hv : b64Val c = some v)
    (rest : List Char) (leftchar pads : Nat) (acc : List Nat) :
    a2bBase64Loop (c :: rest) 3 leftchar pads acc =
      a2bBase64Loop rest 0 0 0 ((leftchar * 64 + v) :: acc) := by
  rw [a2bBase64Loop, if_neg hne, hv]

/-- `(z * k + w) / k = z` when `w < k`. -/
theorem mulAddDiv (z w k : Nat) (hk : 0 < k) (hw : w < k) : (z * k + w) / k = z := by
  rw [Nat.mul_comm, Nat.mul_add_div hk, Nat.div_eq_of_lt hw, Nat.add_zero]

/-- `(z * k + w) % k = w` when `w < k`. -/
theorem mulAddMod (z w k : Nat) (hw : w < k) : (z * k + w) % k = w := by
  rw [Nat.mul_comm, Nat.mul_add_mod, Nat.mod_eq_of_lt hw]

/-- Decoding inverts encoding: the round-trip through `b64EncodeChars` and the
lenient decoder recovers every byte list (bytes < 256). -/
theorem b64Decode_b64Encode_aux (bs : List Nat) (h : ∀ b ∈ bs, b < 256) (acc : List Nat) :
    a2bBase64Loop (b64EncodeChars bs) 0 0 0 acc = .ok (acc.reverse ++ bs) := by
  induction bs using b64EncodeChars.induct generalizing acc with
  | case1 =>
    rw [b64EncodeChars, a2bBase64Loop, if_pos rfl]
    simp
  | case2 b1 =>
    have hb1 : b1 < 256 := h b1 (by simp)
    have h1 : b1 / 4 < 64 := by omega
    have h2 : b1 % 4 * 16 < 64 := by omega
    rw [b64EncodeChars,
      a2bLoop_data0 (b64Chr_ne_pad h1) (b64Val_b64Chr h1),
      a2bLoop_data1 (b64Chr_ne_pad h2) (b64Val_b64Chr h2)]
    have e1 : b1 / 4 * 4 + b1 % 4 * 16 / 16 = b1 := by
      rw [← Nat.add_zero (b1 % 4 * 16), mulAddDiv _ 0 16 (by omega) (by omega)]
      omega
    rw [e1, a2bBase64Loop, if_pos rfl, if_neg (by omega), if_pos (by omega),
      a2bBase64Loop, if_pos rfl, if_pos (by omega)]
    simp
  | case3 b1 b2 =>
    have hb1 : b1 < 256 := h b1 (by simp)
    have hb2 : b2 < 256 := h b2 (by simp)
    have h1 : b1 / 4 < 64 := by omega
    have h2 : b1 % 4 * 16 + b2 / 16 < 64 := by omega
    have h3 : b2 % 16 * 4 < 64 := by omega
    have w1 : b2 / 16 < 16 := by omega
    rw [b64EncodeChars,
      a2bLoop_data0 (b64Chr_ne_pad h1) (b64Val_b64Chr h1),
      a2bLoop_data1 (b64Chr_ne_pad h2) (b64Val_b64Chr h2)]
    have e1 : b1 / 4 * 4 + (b1 % 4 * 16 + b2 / 16) / 16 = b1 := by
      rw [mulAddDiv _ _ 16 (by omega) w1]
      omega
    rw [e1, a2bLoop_data2 (b64Chr_ne_pad h3) (b64Val_b64Chr h3)]
    have e2 : (b1 % 4 * 16 + b2 / 16) % 16 * 16 + b2 % 16 * 4 / 4 = b2 := by
      rw [mulAddMod _ _ 16 w1, ← Nat.add_zero (b2 % 16 * 4),
        mulAddDiv _ 0 4 (by omega) (by omega)]
      omega
    rw [e2, a2bBase64Loop, if_pos rfl, if_pos (by omega)]
    simp
  | case4 b1 b2 b3 rest ih =>
    have hb1 : b1 < 256 := h b1 (by simp)
    have hb2 : b2 < 256 := h b2 (by simp)
    have hb3 : b3 < 256 := h b3 (by simp)
    have h1 : b1 / 4 < 64 := by omega
    have h2 : b1 % 4 * 16 + b2 / 16 < 64 := by omega
    have h3 : b2 % 16 * 4 + b3 / 64 < 64 := by omega
    have h4 : b3 % 64 < 64 := by omega
    have w1 : b2 / 16 < 16 := by omega
    have w2 : b3 / 64 < 4 := by omega
    rw [b64EncodeChars,
      a2bLoop_data0 (b64Chr_ne_pad h1) (b64Val_b64Chr h1),
      a2bLoop_data1 (b64Chr_ne_pad h2) (b64Val_b64Chr h2)]
    have e1 : b1 / 4 * 4 + (b1 % 4 * 16 + b2 / 16) / 16 = b1 := by
      rw [mulAddDiv _ _ 16 (by omega) w1]
      omega
    rw [e1, a2bLoop_data2 (b64Chr_ne_pad h3) (b64Val_b64Chr h3)]
    have e2 : (b1 % 4 * 16 + b2 / 16) % 16 * 16 + (b2 % 16 * 4 + b3 / 64) / 4 = b2 := by
      rw [mulAddMod _ _ 16 w1, mulAddDiv _ _ 4 (by omega) w2]
      omega
    rw [e2, a2bLoop_data3 (b64Chr_ne_pad h4) (b64Val_b64Chr h4)]
    have e3 : (b2 % 16 * 4 + b3 / 64) % 4 * 64 + b3 % 64 = b3 := by
      rw [mulAddMod _ _ 4 w2]
      omega
    rw [e3, ih (fun b hb => h b (by simp [hb]))]
    simp

theorem b64Decode_b64Encode (bs : List Nat) (h : ∀ b ∈ bs, b < 256) :
    b64Decode (b64EncodeChars bs) = .ok bs := by
  rw [b64Decode, b64Decode_b64Encode_aux bs h []]
  rfl

/-!
## JSON

`json.loads` / `json.dumps` on the fragment the cursor codec exercises.
Numbers are kept as raw lexemes (`Json.num`): the cursor codec never uses a
numeric value — `datetime.fromisoformat` is only ever applied to strings and
raises `TypeError` on anything else.  The parser follows the JSON grammar
(including escapes; lone `\uXXXX` surrogates, which CPython tolerates, are
rejected — an unreachable corner here since the printer never emits them
unpaired).
-/

inductive Json where
  | null
  | bool (b : Bool)
  | num (raw : String)
  | str (s : String)
  | arr (elems : List Json)
  | obj (members : List (String × Json))

def skipWs : List Char → List Char
  | c :: rest =>
    if c = ' ' ∨ c = '\t' ∨ c = '\n' ∨ c = '\r' then skipWs rest else c :: rest
  | [] => []

def hexVal (c : Char) : Option Nat :=
  if '0' ≤ c ∧ c ≤ '9' then some (c.toNat - 48)
  else if 'a' ≤ c ∧ c ≤ 'f' then some (c.toNat - 97 + 10)
  else if 'A' ≤ c ∧ c ≤ 'F' then some (c.toNat - 65 + 10)
  else none

/-- Parse a JSON string body (after the opening quote), accumulating decoded
characters in reverse. -/
def parseStrBody : List Char → List Char → Option (String × List Char)
  | _, [] => none
  | acc, c :: rest =>
    if c = '"' then some (String.mk acc.reverse, rest)
    else if c = '\\' then
      match rest with
      | [] => none
      | e :: rest' =>
        if e = '"' then parseStrBody ('"' :: acc) rest'
        else if e = '\\' then parseStrBody ('\\' :: acc) rest'
        else if e = '/' then parseStrBody ('/' :: acc) rest'
        else if e = 'b' then parseStrBody (Char.ofNat 8 :: acc) rest'
        else if e = 'f' then parseStrBody (Char.ofNat 12 :: acc) rest'
        else if e = 'n' then parseStrBody ('\n' :: acc) rest'
        else if e = 'r' then parseStrBody (Char.ofNat 13 :: acc) rest'
        else if e = 't' then parseStrBody ('\t' :: acc) rest'
        else if e = 'u' then
          match rest' with
          | h1 :: h2 :: h3 :: h4 :: rest2 =>
            match hexVal h1, hexVal h2, hexVal h3, hexVal h4 with
            | some x1, some x2, some x3, some x4 =>
              if 0xD800 ≤ x1 * 4096 + x2 * 256 + x3 * 16 + x4 ∧
                  x1 * 4096 + x2 * 256 + x3 * 16 + x4 < 0xE000 then none
              else parseStrBody (Char.ofNat (x1 * 4096 + x2 * 256 + x3 * 16 + x4) :: acc) rest2
            | _, _, _, _ => none
          | _ => none
        else none
    else if c.toNat < 0x20 then none
    else parseStrBody (c :: acc) rest

/-- Lex a JSON number (sign, integer part, optional fraction and exponent),
returning the raw lexeme. -/
def parseNumber (cs : List Char) : Option (String × List Char) :=
  let sgnRest : List Char × List Char :=
    match cs with
    | '-' :: r => (['-'], r)
    | _ => ([], cs)
  match sgnRest.2 with
  | '0' :: r => parseNumTail (sgnRest.1 ++ ['0']) r
  | c :: r =>
    if c.isDigit then
      parseNumTail (sgnRest.1 ++ c :: (r.takeWhile (·.isDigit))) (r.dropWhile (·.isDigit))
    else none
  | [] => none
where
  parseNumTail (intPart : List Char) (cs : List Char) : Option (String × List Char) :=
    let fracRes : Option (List Char × List Char) :=
      match cs with
      | '.' :: r =>
        if (r.takeWhile (·.isDigit)) = [] then none
        else some ('.' :: r.takeWhile (·.isDigit), r.dropWhile (·.isDigit))
      | _ => some ([], cs)
    match fracRes with
    | none => none
    | some (fracPart, cs1) =>
      let expRes : Option (List Char × List Char) :=
        match cs1 with
        | e :: r =>
          if e = 'e' ∨ e = 'E' then
            let sgnRest2 : List Char × List Char :=
              match r with
              | '+' :: rr => (['+'], rr)
              | '-' :: rr => (['-'], rr)
              | _ => ([], r)
            if (sgnRest2.2.takeWhile (·.isDigit)) = [] then none
            else some (e :: sgnRest2.1 ++ sgnRest2.2.takeWhile (·.isDigit),
              sgnRest2.2.dropWhile (·.isDigit))
          else some ([], cs1)
        | [] => some ([], [])
      match expRes with
      | none => none
      | some (expPart, cs2) => some (String.mk (intPart ++ fracPart ++ expPart), cs2)

mutual

/-- Recursive-descent JSON value parser; the fuel bounds nesting depth and
member counts (`jsonLoads` passes input length + 1, which is always enough
because every recursive call follows at least one consumed character). -/
def parseValue : Nat → List Char → Option (Json × List Char)
  | 0, _ => none
  | fuel + 1, cs =>
    match skipWs cs with
    | '{' :: rest =>
      match skipWs rest with
      | '}' :: rest' => some (.obj [], rest')
      | _ => (parseMembers fuel (skipWs rest)).map (fun p => (.obj p.1, p.2))
    | '[' :: rest =>
      match skipWs rest with
      | ']' :: rest' => some (.arr [], rest')
      | _ => (parseElems fuel (skipWs rest)).map (fun p => (.arr p.1, p.2))
    | '"' :: rest => (parseStrBody [] rest).map (fun p => (.str p.1, p.2))
    | 't' :: 'r' :: 'u' :: 'e' :: rest => some (.bool true, rest)
    | 'f' :: 'a' :: 'l' :: 's' :: 'e' :: rest => some (.bool false, rest)
    | 'n' :: 'u' :: 'l' :: 'l' :: rest => some (.null, rest)
    | cs' => (parseNumber cs').map (fun p => (.num p.1, p.2))

/-- Parse the members of a non-empty JSON object, up to and including the
closing brace. -/
def parseMembers : Nat → List Char → Option (List (String × Json) × List Char)
  | 0, _ => none
  | fuel + 1, cs =>
    match skipWs cs with
    | '"' :: rest =>
      match parseStrBody [] rest with
      | some (key, r1) =>
        match skipWs r1 with
        | ':' :: r2 =>
          match parseValue fuel r2 with
          | some (v, r3) =>
            match skipWs r3 with
            | ',' :: r4 => (parseMembers fuel r4).map (fun p => ((key, v) :: p.1, p.2))
            | '}' :: r4 => some ([(key, v)], r4)
            | _ => none
          | none => none
        | _ => none
      | none => none
    | _ => none

/-- Parse the elements of a non-empty JSON array, up to and including the
closing bracket. -/
def parseElems : Nat → List Char → Option (List Json × List Char)
  | 0, _ => none
  | fuel + 1, cs =>
    match parseValue fuel cs with
    | some (v, r1) =>
      match skipWs r1 with
      | ',' :: r2 => (parseElems fuel r2).map (fun p => (v :: p.1, p.2))
      | ']' :: r2 => some ([v], r2)
      | _ => none
    | none => none

end

/-- `json.loads`: parse a complete document, allowing trailing whitespace;
errors model `json.JSONDecodeError` (a `ValueError` subclass). -/
def jsonLoads (s : String) : Except String Json :=
  match parseValue (s.data.length + 1) s.data with
  | some (v, rest) => if skipWs rest = [] then .ok v else .error "Extra data"
  | none => .error "Expecting value"

/-- Lower-case hex digit. -/
def jsonHexDigit (n : Nat) : Char :=
  if n < 10 then Char.ofNat (48 + n) else Char.ofNat (97 + (n - 10))

/-- `json.dumps` escaping of one character (`ensure_ascii=True`, the default):
quote, backslash and the short control escapes, `\uXXXX` for other control and
all non-ASCII characters (surrogate pairs above `0xFFFF`). -/
def jsonEscapeChar (c : Char) : List Char :=
  if c = '"' then ['\\', '"']
  else if c = '\\' then ['\\', '\\']
  else if c = Char.ofNat 8 then ['\\', 'b']
  else if c = '\t' then ['\\', 't']
  else if c = '\n' then ['\\', 'n']
  else if c = Char.ofNat 12 then ['\\', 'f']
  else if c = Char.ofNat 13 then ['\\', 'r']
  else if c.toNat < 0x20 ∨ 0x7F ≤ c.toNat then
    if c.toNat < 0x10000 then
      ['\\', 'u', jsonHexDigit (c.toNat / 4096 % 16), jsonHexDigit (c.toNat / 256 % 16),
        jsonHexDigit (c.toNat / 16 % 16), jsonHexDigit (c.toNat % 16)]
    else
      ['\\', 'u', jsonHexDigit ((0xD800 + (c.toNat - 0x10000) / 1024) / 4096 % 16),
        jsonHexDigit ((0xD800 + (c.toNat - 0x10000) / 1024) / 256 % 16),
        jsonHexDigit ((0xD800 + (c.toNat - 0x10000) / 1024) / 16 % 16),
        jsonHexDigit ((0xD800 + (c.toNat - 0x10000) / 1024) % 16),
        '\\', 'u', jsonHexDigit ((0xDC00 + (c.toNat - 0x10000) % 1024) / 4096 % 16),
        jsonHexDigit ((0xDC00 + (c.toNat - 0x10000) % 1024) / 256 % 16),
        jsonHexDigit ((0xDC00 + (c.toNat - 0x10000) % 1024) / 16 % 16),
        jsonHexDigit ((0xDC00 + (c.toNat - 0x10000) % 1024) % 16)]
  else [c]

def jsonEscapeBody : List Char → List Char
  | [] => []
  | c :: rest => jsonEscapeChar c ++ jsonEscapeBody rest

/-- A quoted, escaped JSON string literal. -/
def jsonQuote (s : String) : List Char :=
  '"' :: jsonEscapeBody s.data ++ ['"']

/-- `json.dumps(cursor_data)` for the two-key cursor object the search builds
(`{sort_field_name: value.isoformat(), "id": id}`), with the default
`", "`/`": "` separators. -/
def jsonDumpsCursor (sortFieldName : String) (v : Nat) (id : String) : List Char :=
  '{' :: (jsonQuote sortFieldName ++ ':' :: ' ' :: jsonQuote (String.mk (natSerialize v)) ++
    ',' :: ' ' :: jsonQuote "id" ++ ':' :: ' ' :: jsonQuote id) ++ ['}']

/-- The cursor string the search returns:
`base64.b64encode(json.dumps(cursor_data).encode()).decode()`. -/
def encodeCursor (sortFieldName : String) (v : Nat) (id : String) : String :=
  String.mk (b64EncodeChars (utf8Encode (jsonDumpsCursor sortFieldName v id)))

/-- Is `needle` a prefix of `hay`? -/
def listStartsWith : List Char → List Char → Bool
  | [], _ => true
  | _ :: _, [] => false
  | a :: as, b :: bs => a == b && listStartsWith as bs

/-- Is `needle` a contiguous substring of `hay` (Python `needle in hay` /
SQL `contains`)? -/
def listContainsSub (needle : List Char) : List Char → Bool
  | [] => listStartsWith needle []
  | c :: rest => listStartsWith needle (c :: rest) || listContainsSub needle rest

/-- Python's `key in value` for a decoded JSON value: key membership for
objects, element equality for arrays, substring for strings, `TypeError` for
the rest. -/
def jsonContains (j : Json) (k : String) : Except Err Bool :=
  match j with
  | .obj ms => .ok (ms.any (fun p => p.1 == k))
  | .arr xs => .ok (xs.any (fun x => match x with | .str s => s == k | _ => false))
  | .str t => .ok (listContainsSub k.data t.data)
  | _ => .error (.typeError "argument is not iterable")

/-- Python's `value[k]` for a decoded JSON value (only reached after a
successful `in` check; duplicate object keys resolve to the last one, as in a
Python dict built by `json.loads`). -/
def jsonIndex (j : Json) (k : String) : Except Err Json :=
  match j with
  | .obj ms =>
    match ms.foldl (fun acc p => if p.1 == k then some p.2 else acc) none with
    | some v => .ok v
    | none => .error (.valueError "missing key")
  | _ => .error (.typeError "indices must be integers")

/-- `datetime.fromisoformat` on the abstract time axis: parse the decimal
rendering, raising `ValueError` otherwise. -/
def fromisoformat (s : String) : Except String Nat :=
  match natParse s.data with
  | some n => .ok n
  | none => .error "Invalid isoformat string"

/-- The cursor-decoding block of `search_raw_memories`: lenient base64, UTF-8
decode, `json.loads`, the required-keys check, `fromisoformat` on the sort
value.  Any `ValueError`/`KeyError`/`JSONDecodeError`/`UnicodeDecodeError` is
re-raised as `ValueError("Invalid cursor format: " + message)`; a `TypeError`
(non-iterable document, list indexing, a non-string timestamp) propagates
unwrapped.  A non-string `id` value is modelled as a `TypeError` as well (the
source would defer that failure to the SQL comparison).  -/
def decodeCursor (sortFieldName : String) (cursor : String) : Except Err (Nat × String) :=
  match b64Decode cursor.data with
  | .error e => .error (.valueError ("Invalid cursor format: " ++ e))
  | .ok bytes =>
    match utf8Decode bytes with
    | .error e => .error (.valueError ("Invalid cursor format: " ++ e))
    | .ok chars =>
      match jsonLoads (String.mk chars) with
      | .error e => .error (.valueError ("Invalid cursor format: " ++ e))
      | .ok j =>
        match jsonContains j sortFieldName with
        | .error te => .error te
        | .ok b1 =>
          match jsonContains j "id" with
          | .error te => .error te
          | .ok b2 =>
            if b1 = false ∨ b2 = false then
              .error (.valueError
                "Invalid cursor format: Invalid cursor format: missing required fields")
            else
              match jsonIndex j sortFieldName with
              | .error te => .error te
              | .ok (.str vs) =>
                match fromisoformat vs with
                | .ok v =>
                  match jsonIndex j "id" with
                  | .error te => .error te
                  | .ok (.str idv) => .ok (v, idv)
                  | .ok _ => .error (.typeError "cursor id is not a string")
                | .error e => .error (.valueError ("Invalid cursor format: " ++ e))
              | .ok _ => .error (.typeError "fromisoformat: argument must be str")

/-- The three legal sort fields. -/
inductive SortField where
  | created_at
  | updated_at
  | occurred_at
deriving DecidableEq, Repr

/-- The record's value of the active sort field. -/
def sortVal (sf : SortField) (m : RawMem) : Nat :=
  match sf with
  | .created_at => m.created_at
  | .updated_at => m.updated_at
  | .occurred_at => m.occurred_at

/-- `sort.lstrip("-")`: strip every leading dash. -/
def lstripDashes (s : String) : String :=
  String.mk (s.data.dropWhile (fun c => c = '-'))

/-- The sort-field validation of `search_raw_memories` (applied to the
dash-stripped name). -/
def sortFieldOfName (n : String) : Option SortField :=
  if n = "updated_at" then some .updated_at
  else if n = "created_at" then some .created_at
  else if n = "occurred_at" then some .occurred_at
  else none

/-- The `time_range` bounds (`{field}_gte` / `{field}_lte`); an absent map or
absent entry constrains nothing. -/
structure TimeRange where
  created_at_gte : Option Nat := none
  created_at_lte : Option Nat := none
  occurred_at_gte : Option Nat := none
  occurred_at_lte : Option Nat := none
  updated_at_gte : Option Nat := none
  updated_at_lte : Option Nat := none
deriving DecidableEq, Repr

def timeRangeOk (tr : Option TimeRange) (m : RawMem) : Bool :=
  match tr with
  | none => true
  | some t =>
    (match t.created_at_gte with | some b => b ≤ m.created_at | none => true) &&
    (match t.created_at_lte with | some b => m.created_at ≤ b | none => true) &&
    (match t.occurred_at_gte with | some b => b ≤ m.occurred_at | none => true) &&
    (match t.occurred_at_lte with | some b => m.occurred_at ≤ b | none => true) &&
    (match t.updated_at_gte with | some b => b ≤ m.updated_at | none => true) &&
    (match t.updated_at_lte with | some b => m.updated_at ≤ b | none => true)

/-- One `filter_tags` conjunct: `scope` matches case-insensitively by
substring-or-equality, every other key by exact equality; a record lacking the
key never matches (SQL `NULL` comparisons are falsy). -/
def tagFilterOk (m : RawMem) (k v : String) : Bool :=
  if k = "scope" then
    match m.filter_tags.lookup k with
    | some s => listContainsSub v.toLower.data s.toLower.data || s == v
    | none => false
  else
    match m.filter_tags.lookup k with
    | some s => s == v
    | none => false

/-- The conjunction of all non-cursor `WHERE` clauses of the search query. -/
def searchFilter (organization_id : String) (user_id : Option String)
    (filter_tags : Option Tags) (time_range : Option TimeRange) (m : RawMem) : Bool :=
  m.organization_id == organization_id &&
  (match user_id with
    | some u => if u = "" then true else m.user_id == u
    | none => true) &&
  (match filter_tags with
    | some ft => ft.all (fun kv => tagFilterOk m kv.1 kv.2)
    | none => true) &&
  timeRangeOk time_range m

/-- The compound cursor predicate: `(sort_field beyond cursor value) OR
(sort_field = cursor value AND id beyond cursor id)`, `beyond` being `>` for
ascending and `<` for descending sorts. -/
def cursorPred (ascending : Bool) (sf : SortField) (v : Nat) (cid : String) (m : RawMem) :
    Bool :=
  if ascending then
    decide (v < sortVal sf m) || (sortVal sf m == v && decide (cid.data < m.id.data))
  else
    decide (sortVal sf m < v) || (sortVal sf m == v && decide (m.id.data < cid.data))

/-- `not sort.startswith("-")`, read off the character list. -/
def sortAscending (sort : String) : Bool :=
  match sort.data with
  | '-' :: _ => false
  | _ => true

/-- The `ORDER BY (sort_field, id)` relation, ascending or descending. -/
def sortRel (ascending : Bool) (sf : SortField) (a b : RawMem) : Prop :=
  if ascending then
    sortVal sf a < sortVal sf b ∨ (sortVal sf a = sortVal sf b ∧ ¬ b.id.data < a.id.data)
  else
    sortVal sf b < sortVal sf a ∨ (sortVal sf b = sortVal sf a ∧ ¬ a.id.data < b.id.data)

instance (ascending : Bool) (sf : SortField) : DecidableRel (sortRel ascending sf) :=
  fun a b => by unfold sortRel; infer_instance

/-- `RawMemoryManager.search_raw_memories`.

The SQL query becomes: filter the table by the `WHERE` clauses (including the
compound cursor predicate), sort by `(sort_field, id)` in the requested
direction (`insertionSort`, a legitimate refinement of `ORDER BY` because the
id tie-break makes the order total on distinct rows), fetch `limit + 1` rows,
trim and emit the `next_cursor` built from the last returned row.  The limit
is clamped to 100 first.  An empty cursor string is falsy and skipped, like an
absent one. -/
def search_raw_memories (db : DB) (organization_id : String) (user_id : Option String)
    (filter_tags : Option Tags) (sort : String) (cursor : Option String)
    (time_range : Option TimeRange) (limit : Nat) :
    Except Err (List RawMem × Option String) :=
  let lim := min limit 100
  let ascending := sortAscending sort
  let name := lstripDashes sort
  match sortFieldOfName name with
  | none =>
    .error (.valueError ("Invalid sort field: " ++ name ++
      ". Must be one of \x7b'updated_at', 'created_at', 'occurred_at'\x7d"))
  | some sf =>
    let decRes : Except Err (Option (Nat × String)) :=
      match cursor with
      | some c => if c = "" then .ok none else (decodeCursor name c).map some
      | none => .ok none
    match decRes with
    | .error e => .error e
    | .ok dec =>
      let rows := db.memories.filter (fun m =>
        searchFilter organization_id user_id filter_tags time_range m &&
        (match dec with
         | some vc => cursorPred ascending sf vc.1 vc.2 m
         | none => true))
      let sorted := List.insertionSort (sortRel ascending sf) rows
      let items := sorted.take (lim + 1)
      let hasMore := lim < items.length
      let page := if hasMore then items.take lim else items
      let next_cursor :=
        if hasMore ∧ page ≠ [] then
          match page.getLast? with
          | some last => some (encodeCursor name (sortVal sf last) last.id)
          | none => none
        else none
      .ok (page, next_cursor)

/-- The last-wins key lookup of a parsed object is defined whenever some
member carries the key (seeded with any already-found value). -/
theorem objFoldl_isSome (ms : List (String × Json)) (k : String) (acc : Option Json)
    (h : acc.isSome = true ∨ ms.any (fun p => p.1 == k) = true) :
    (ms.foldl (fun acc p => if p.1 == k then some p.2 else acc) acc).isSome = true := by
  induction ms generalizing acc with
  | nil =>
    rcases h with h | h
    · exact h
    · simp at h
  | cons p rest ih =>
    rw [List.foldl_cons]
    by_cases hp : p.1 == k
    · rw [if_pos hp]
      exact ih (some p.2) (Or.inl rfl)
    · rw [if_neg hp]
      rcases h with h | h
      · exact ih acc (Or.inl h)
      · rw [List.any_cons, Bool.or_eq_true] at h
        rcases h with h | h
        · exact absurd h hp
        · exact ih acc (Or.inr h)

/-- Every `ValueError` escaping the cursor decoder carries the
"Invalid cursor format: " prefix. -/
theorem decodeCursor_valueError_has_prefix (n c m : String)
    (h : decodeCursor n c = .error (.valueError m)) :
    ∃ s, m = "Invalid cursor format: " ++ s := by
  unfold decodeCursor at h
  cases hb : b64Decode c.data with
  | error e =>
    rw [hb] at h
    dsimp only at h
    simp only [Except.error.injEq, Err.valueError.injEq] at h
    exact ⟨e, h.symm⟩
  | ok bytes =>
    rw [hb] at h
    dsimp only at h
    cases hu : utf8Decode bytes with
    | error e =>
      rw [hu] at h
      dsimp only at h
      simp only [Except.error.injEq, Err.valueError.injEq] at h
      exact ⟨e, h.symm⟩
    | ok chars =>
      rw [hu] at h
      dsimp only at h
      cases hj : jsonLoads (String.mk chars) with
      | error e =>
        rw [hj] at h
        dsimp only at h
        simp only [Except.error.injEq, Err.valueError.injEq] at h
        exact ⟨e, h.symm⟩
      | ok j =>
        rw [hj] at h
        dsimp only at h
        have hmiss : ∀ s : String,
            (Except.error (Err.valueError
                "Invalid cursor format: Invalid cursor format: missing required fields")
              : Except Err (Nat × String)) = .error (.valueError m) →
            ∃ s2, m = "Invalid cursor format: " ++ s2 := by
          intro s hh
          simp only [Except.error.injEq, Err.valueError.injEq] at hh
          exact ⟨"Invalid cursor format: missing required fields", hh.symm⟩
        cases j with
        | null => simp [jsonContains] at h
        | bool b => simp [jsonContains] at h
        | num r => simp [jsonContains] at h
        | str s =>
          dsimp only [jsonContains] at h
          split at h
          · exact hmiss "" h
          · dsimp only [jsonIndex] at h
            simp at h
        | arr xs =>
          dsimp only [jsonContains] at h
          split at h
          · exact hmiss "" h
          · dsimp only [jsonIndex] at h
            simp at h
        | obj ms =>
          dsimp only [jsonContains] at h
          split at h
          · exact hmiss "" h
          · rename_i hbools
            rw [not_or, Bool.not_eq_false, Bool.not_eq_false] at hbools
            have h1 := objFoldl_isSome ms n none (Or.inr hbools.1)
            have h2 := objFoldl_isSome ms "id" none (Or.inr hbools.2)
            dsimp only [jsonIndex] at h
            obtain ⟨v1, hv1⟩ := Option.isSome_iff_exists.mp h1
            obtain ⟨v2, hv2⟩ := Option.isSome_iff_exists.mp h2
            rw [hv1] at h
            dsimp only at h
            cases v1 with
            | str vs =>
              dsimp only at h
              cases hf : fromisoformat vs with
              | ok v =>
                rw [hf] at h
                dsimp only at h
                rw [hv2] at h
                cases v2 <;> simp at h
              | error e =>
                rw [hf] at h
                dsimp only at h
                simp only [Except.error.injEq, Err.valueError.injEq] at h
                exact ⟨e, h.symm⟩
            | null => simp at h
            | bool b => simp at h
            | num r => simp at h
            | arr xs => simp at h
            | obj ms2 => simp at h

/-! ## C7 -/

theorem search_sort_validation (db : DB) (org : String) (u : Option String)
    (ft : Option Tags) (tr : Option TimeRange) (k : Nat) (sort : String) :
    (sortFieldOfName (lstripDashes sort) = none →
      search_raw_memories db org u ft sort none tr k =
        .error (.valueError ("Invalid sort field: " ++ lstripDashes sort ++
          ". Must be one of \x7b'updated_at', 'created_at', 'occurred_at'\x7d"))) ∧
    (∀ sf, sortFieldOfName (lstripDashes sort) = some sf →
      ∃ items nc, search_raw_memories db org u ft sort none tr k = .ok (items, nc)) := by
  constructor
  · intro h
    unfold search_raw_memories
    dsimp only
    rw [h]
  · intro sf h
    unfold search_raw_memories
    dsimp only
    rw [h]
    exact ⟨_, _, rfl⟩

theorem search_sort_validation_witness :
    search_raw_memories dbX "org-1" none none "bogus" none none 10 =
      .error (.valueError ("Invalid sort field: " ++ lstripDashes "bogus" ++
        ". Must be one of \x7b'updated_at', 'created_at', 'occurred_at'\x7d")) ∧
    ∃ items nc,
      search_raw_memories dbX "org-1" none none "-created_at" none none 10 = .ok (items, nc) :=
  ⟨(search_sort_validation dbX "org-1" none none none 10 "bogus").1 rfl,
   (search_sort_validation dbX "org-1" none none none 10 "-created_at").2 .created_at rfl⟩

theorem search_sort_validation_counterexample :
    ("--created_at" ∈ (["created_at", "-created_at", "updated_at", "-updated_at",
        "occurred_at", "-occurred_at"] : List String) → False) ∧
    search_raw_memories dbEmpty "org-1" none none "--created_at" none none 10 =
      .ok ([], none) :=
  ⟨by decide, rfl⟩

/-! ## C8 -/

theorem search_invalid_cursor :
    (∀ (db : DB) (org : String) (u : Option String) (ft : Option Tags)
        (tr : Option TimeRange) (k : Nat) (sort : String) (sf : SortField)
        (c : String) (e : Err),
      sortFieldOfName (lstripDashes sort) = some sf →
      c ≠ "" →
      decodeCursor (lstripDashes sort) c = .error e →
      search_raw_memories db org u ft sort (some c) tr k = .error e) ∧
    (∀ (n c : String) (m : String),
      decodeCursor n c = .error (.valueError m) →
      ∃ s, m = "Invalid cursor format: " ++ s) := by
  constructor
  · intro db org u ft tr k sort sf c e hsf hc hdec
    unfold search_raw_memories
    dsimp only
    rw [hsf]
    dsimp only
    rw [if_neg hc, hdec]
    rfl
  · exact decodeCursor_valueError_has_prefix

theorem search_invalid_cursor_witness :
    search_raw_memories dbX "org-1" none none "created_at" (some "not-base64!!!") none 10 =
      .error (.valueError ("Invalid cursor format: " ++
        "Invalid base64-encoded string: number of data characters cannot be 1 more than a multiple of 4")) ∧
    search_raw_memories dbX "org-1" none none "created_at" (some "aGVsbG8=") none 10 =
      .error (.valueError ("Invalid cursor format: " ++ "Expecting value")) ∧
    search_raw_memories dbX "org-1" none none "created_at" (some "e30=") none 10 =
      .error (.valueError
        "Invalid cursor format: Invalid cursor format: missing required fields") :=
  ⟨search_invalid_cursor.1 dbX "org-1" none none none 10 "created_at" .created_at
      "not-base64!!!" _ rfl (by decide) rfl,
   search_invalid_cursor.1 dbX "org-1" none none none 10 "created_at" .created_at
      "aGVsbG8=" _ rfl (by decide) rfl,
   search_invalid_cursor.1 dbX "org-1" none none none 10 "created_at" .created_at
      "e30=" _ rfl (by decide) rfl⟩

/-- Strict (RFC 4648) base64 validity: length a multiple of four, every
character in the alphabet except for one or two final padding characters.
Modelled from the spec's words — it is the reading of "invalid base64" the
claim uses, against which the lenient decoder is compared. -/
def strictBase64Valid (cs : List Char) : Bool :=
  decide (cs.length % 4 = 0) &&
  (match cs.reverse with
   | '=' :: '=' :: r => r.all (fun c => (b64Val c).isSome)
   | '=' :: r => r.all (fun c => (b64Val c).isSome)
   | r => r.all (fun c => (b64Val c).isSome))

theorem search_invalid_cursor_counterexample :
    strictBase64Valid (encodeCursor "created_at" 5 "raw_mem_x" ++ "!").data = false ∧
    decodeCursor "created_at" (encodeCursor "created_at" 5 "raw_mem_x" ++ "!") =
      .ok (5, "raw_mem_x") ∧
    search_raw_memories dbX "org-1" none none "created_at"
      (some (encodeCursor "created_at" 5 "raw_mem_x" ++ "!")) none 10 = .ok ([], none) ∧
    search_raw_memories dbX "org-1" none none "created_at" none none 10 =
      .ok ([memX], none) :=
  ⟨rfl, rfl, rfl, rfl⟩

/-!
## C2 — pagination theory

The sort key of a record is the pair `(sort-field value, id)`; `keyLt` is the
strict lexicographic comparison the compound cursor predicate implements,
oriented by the sort direction.  On records with pairwise-distinct ids
(`id` is the primary key) the `ORDER BY` relation `sortRel` is total and its
ties are broken, which makes every page of the search a contiguous slice of
one fixed sorted list.
-/

/-- The `(sort-field value, id)` sort key. -/
def sortKey (sf : SortField) (m : RawMem) : Nat × List Char :=
  (sortVal sf m, m.id.data)

/-- Strict "beyond the cursor" comparison on sort keys: lexicographic,
flipped for descending sorts. -/
def keyLt : Bool → Nat × List Char → Nat × List Char → Prop
  | true, p, q => p.1 < q.1 ∨ (p.1 = q.1 ∧ p.2 < q.2)
  | false, p, q => q.1 < p.1 ∨ (q.1 = p.1 ∧ q.2 < p.2)

theorem keyLt_false_iff (p q : Nat × List Char) : keyLt false p q ↔ keyLt true q p :=
  Iff.rfl

theorem keyLtT_irrefl (p : Nat × List Char) : ¬ keyLt true p p := by
  rintro (h | ⟨-, h⟩)
  · exact lt_irrefl _ h
  · exact lt_irrefl _ h

theorem keyLtT_trans {p q r : Nat × List Char}
    (h1 : keyLt true p q) (h2 : keyLt true q r) : keyLt true p r := by
  rcases h1 with h1 | ⟨h1e, h1l⟩ <;> rcases h2 with h2 | ⟨h2e, h2l⟩
  · exact Or.inl (lt_trans h1 h2)
  · exact Or.inl (h2e ▸ h1)
  · exact Or.inl (h1e ▸ h2)
  · exact Or.inr ⟨h1e.trans h2e, lt_trans h1l h2l⟩

theorem keyLtT_connex {p q : Nat × List Char}
    (h1 : ¬ keyLt true p q) (h2 : ¬ keyLt true q p) : p = q := by
  unfold keyLt at h1 h2
  have hn : p.1 = q.1 := by
    rcases lt_trichotomy p.1 q.1 with h | h | h
    · exact absurd (Or.inl h) h1
    · exact h
    · exact absurd (Or.inl h) h2
  have hl : p.2 = q.2 := by
    rcases lt_trichotomy p.2 q.2 with h | h | h
    · exact absurd (Or.inr ⟨hn, h⟩) h1
    · exact h
    · exact absurd (Or.inr ⟨hn.symm, h⟩) h2
  exact Prod.ext hn hl

theorem keyLt_irrefl (asc : Bool) (p : Nat × List Char) : ¬ keyLt asc p p := by
  cases asc
  · rw [keyLt_false_iff]
    exact keyLtT_irrefl p
  · exact keyLtT_irrefl p

theorem keyLt_trans {asc : Bool} {p q r : Nat × List Char}
    (h1 : keyLt asc p q) (h2 : keyLt asc q r) : keyLt asc p r := by
  cases asc
  · rw [keyLt_false_iff] at *
    exact keyLtT_trans h2 h1
  · exact keyLtT_trans h1 h2

theorem keyLt_asymm {asc : Bool} {p q : Nat × List Char} (h : keyLt asc p q) :
    ¬ keyLt asc q p :=
  fun h2 => keyLt_irrefl asc p (keyLt_trans h h2)

theorem keyLt_connex {asc : Bool} {p q : Nat × List Char}
    (h1 : ¬ keyLt asc p q) (h2 : ¬ keyLt asc q p) : p = q := by
  cases asc
  · rw [keyLt_false_iff] at h1 h2
    exact keyLtT_connex h2 h1
  · exact keyLtT_connex h1 h2

/-- `keyLt` on sort keys, spelled out. -/
theorem keyLtT_key_iff (sf : SortField) (a b : RawMem) :
    keyLt true (sortKey sf a) (sortKey sf b) ↔
      (sortVal sf a < sortVal sf b ∨
        (sortVal sf a = sortVal sf b ∧ a.id.data < b.id.data)) :=
  Iff.rfl

/-- `sortRel` is exactly "not strictly beyond in the other direction". -/
theorem sortRel_iff_not_keyLt (asc : Bool) (sf : SortField) (a b : RawMem) :
    sortRel asc sf a b ↔ ¬ keyLt asc (sortKey sf b) (sortKey sf a) := by
  unfold sortRel
  cases asc
  · rw [if_neg Bool.false_ne_true, keyLt_false_iff, keyLtT_key_iff]
    constructor
    · rintro (h | ⟨he, hl⟩)
      · rintro (h2 | ⟨h2e, h2l⟩) <;> omega
      · rintro (h2 | ⟨h2e, h2l⟩)
        · omega
        · exact hl h2l
    · intro h
      rcases lt_trichotomy (sortVal sf b) (sortVal sf a) with h3 | h3 | h3
      · exact Or.inl h3
      · exact Or.inr ⟨h3, fun hid => h (Or.inr ⟨h3.symm, hid⟩)⟩
      · exact absurd (Or.inl h3) h
  · rw [if_pos rfl, keyLtT_key_iff]
    constructor
    · rintro (h | ⟨he, hl⟩)
      · rintro (h2 | ⟨h2e, h2l⟩) <;> omega
      · rintro (h2 | ⟨h2e, h2l⟩)
        · omega
        · exact hl h2l
    · intro h
      rcases lt_trichotomy (sortVal sf a) (sortVal sf b) with h3 | h3 | h3
      · exact Or.inl h3
      · exact Or.inr ⟨h3, fun hid => h (Or.inr ⟨h3.symm, hid⟩)⟩
      · exact absurd (Or.inl h3) h

theorem sortRel_total (asc : Bool) (sf : SortField) (a b : RawMem) :
    sortRel asc sf a b ∨ sortRel asc sf b a := by
  by_cases h : keyLt asc (sortKey sf b) (sortKey sf a)
  · exact Or.inr ((sortRel_iff_not_keyLt asc sf b a).mpr (keyLt_asymm h))
  · exact Or.inl ((sortRel_iff_not_keyLt asc sf a b).mpr h)

theorem sortRel_trans {asc : Bool} {sf : SortField} {a b c : RawMem}
    (h1 : sortRel asc sf a b) (h2 : sortRel asc sf b c) : sortRel asc sf a c := by
  rw [sortRel_iff_not_keyLt] at *
  intro h
  by_cases hq : keyLt asc (sortKey sf b) (sortKey sf c)
  · exact h1 (keyLt_trans hq h)
  · by_cases hr : keyLt asc (sortKey sf c) (sortKey sf b)
    · exact h2 hr
    · refine h1 ?_
      rw [keyLt_connex hq hr]
      exact h

/-- The compound cursor predicate is exactly the strict key comparison. -/
theorem cursorPred_iff (asc : Bool) (sf : SortField) (v : Nat) (i : String) (m : RawMem) :
    cursorPred asc sf v i m = true ↔ keyLt asc (v, i.data) (sortKey sf m) := by
  unfold cursorPred
  have hkey : keyLt true ((v, i.data) : Nat × List Char) (sortKey sf m) ↔
      (v < sortVal sf m ∨ (v = sortVal sf m ∧ i.data < m.id.data)) := Iff.rfl
  have hkey2 : keyLt true (sortKey sf m) ((v, i.data) : Nat × List Char) ↔
      (sortVal sf m < v ∨ (sortVal sf m = v ∧ m.id.data < i.data)) := Iff.rfl
  cases asc
  · rw [if_neg Bool.false_ne_true, keyLt_false_iff, hkey2]
    simp only [Bool.or_eq_true, decide_eq_true_eq, Bool.and_eq_true, beq_iff_eq]
  · rw [if_pos rfl, hkey]
    simp only [Bool.or_eq_true, decide_eq_true_eq, Bool.and_eq_true, beq_iff_eq]
    constructor
    · rintro (h | ⟨he, hl⟩)
      · exact Or.inl h
      · exact Or.inr ⟨he.symm, hl⟩
    · rintro (h | ⟨he, hl⟩)
      · exact Or.inl h
      · exact Or.inr ⟨he.symm, hl⟩

instance (asc : Bool) (sf : SortField) : IsTotal RawMem (sortRel asc sf) :=
  ⟨sortRel_total asc sf⟩

instance (asc : Bool) (sf : SortField) : IsTrans RawMem (sortRel asc sf) :=
  ⟨fun _ _ _ => sortRel_trans⟩

/-- On a list with pairwise-distinct ids, being `ORDER BY`-sorted means being
strictly sorted by the key comparison: the tie-break leaves no equal keys. -/
theorem pairwise_keyLt_of_sorted {asc : Bool} {sf : SortField} {l : List RawMem}
    (hs : List.Sorted (sortRel asc sf) l) (hnd : (l.map RawMem.id).Nodup) :
    l.Pairwise (fun a b => keyLt asc (sortKey sf a) (sortKey sf b)) := by
  have hnd' : l.Pairwise (fun a b => a.id ≠ b.id) := by
    rw [List.Nodup, List.pairwise_map] at hnd
    exact hnd
  refine (hs.and hnd').imp ?_
  rintro a b ⟨hr, hne⟩
  rw [sortRel_iff_not_keyLt] at hr
  by_cases h : keyLt asc (sortKey sf a) (sortKey sf b)
  · exact h
  · exfalso
    apply hne
    have hk := keyLt_connex h hr
    have : a.id.data = b.id.data := congrArg Prod.snd hk
    exact String.toList_inj.mp this

/-- Filtering commutes with sorting: the sort of the filtered table equals the
filter of the sorted table (ids are pairwise distinct, so the order is rigid). -/
theorem insertionSort_filter_comm (asc : Bool) (sf : SortField) (q : RawMem → Bool)
    (l : List RawMem) (hnd : (l.map RawMem.id).Nodup) :
    List.insertionSort (sortRel asc sf) (l.filter q) =
      (List.insertionSort (sortRel asc sf) l).filter q := by
  haveI : IsAntisymm RawMem (fun a b => keyLt asc (sortKey sf a) (sortKey sf b)) :=
    ⟨fun a b h1 h2 => absurd h2 (keyLt_asymm h1)⟩
  apply List.eq_of_perm_of_sorted
    (r := fun a b => keyLt asc (sortKey sf a) (sortKey sf b))
  · exact (List.perm_insertionSort _ _).trans
      ((List.perm_insertionSort (sortRel asc sf) l).symm.filter q)
  · apply pairwise_keyLt_of_sorted (List.sorted_insertionSort _ _)
    exact ((List.perm_insertionSort (sortRel asc sf) (l.filter q)).map RawMem.id).nodup_iff.mpr
      (((List.filter_sublist l).map RawMem.id).nodup hnd)
  · apply List.Pairwise.sublist (List.filter_sublist _)
    apply pairwise_keyLt_of_sorted (List.sorted_insertionSort _ _)
    exact ((List.perm_insertionSort (sortRel asc sf) l).map RawMem.id).nodup_iff.mpr hnd

/-- On a strictly sorted list, the compound cursor predicate built from the
element `x` selects exactly the suffix after `x`. -/
theorem filter_cursorPred_of_split (asc : Bool) (sf : SortField)
    (l₁ : List RawMem) (x : RawMem) (l₂ : List RawMem)
    (hp : (l₁ ++ x :: l₂).Pairwise (fun a b => keyLt asc (sortKey sf a) (sortKey sf b))) :
    (l₁ ++ x :: l₂).filter (cursorPred asc sf (sortVal sf x) x.id) = l₂ := by
  induction l₁ with
  | nil =>
    rw [List.nil_append, List.filter_cons]
    rw [List.nil_append, List.pairwise_cons] at hp
    have hx : cursorPred asc sf (sortVal sf x) x.id x = false := by
      rw [← Bool.not_eq_true, cursorPred_iff]
      exact keyLt_irrefl asc (sortKey sf x)
    rw [hx, if_neg Bool.false_ne_true]
    apply List.filter_eq_self.mpr
    intro y hy
    rw [cursorPred_iff]
    exact hp.1 y hy
  | cons a l₁ ih =>
    rw [List.cons_append, List.filter_cons]
    rw [List.cons_append, List.pairwise_cons] at hp
    have ha : cursorPred asc sf (sortVal sf x) x.id a = false := by
      rw [← Bool.not_eq_true, cursorPred_iff]
      exact keyLt_asymm (hp.1 x (by simp))
    rw [ha, if_neg Bool.false_ne_true]
    exact ih hp.2

/-!
## Cursor round-trip

`decodeCursor` inverts `encodeCursor` for ids made of safe printable ASCII
characters (no quote, no backslash) — every id the system generates
(`raw_mem_...`) is of this shape.
-/

/-- A character the JSON printer emits literally and every decoder stage
passes through unchanged: printable ASCII, not a quote or backslash. -/
def charSafe (c : Char) : Prop :=
  0x20 ≤ c.toNat ∧ c.toNat < 0x7F ∧ c ≠ '"' ∧ c ≠ '\\'

instance charSafe.instDecidable (c : Char) : Decidable (charSafe c) := by
  unfold charSafe; infer_instance

/-- A string of safe characters. -/
def strSafe (s : String) : Prop := ∀ c ∈ s.data, charSafe c

instance strSafe.instDecidable (s : String) : Decidable (strSafe s) := by
  unfold strSafe; exact List.decidableBAll _ _

theorem jsonEscapeChar_safe {c : Char} (h : charSafe c) : jsonEscapeChar c = [c] := by
  obtain ⟨h1, h2, h3, h4⟩ := h
  have t8 : c ≠ Char.ofNat 8 := fun he => by rw [he] at h1; exact absurd h1 (by decide)
  have t9 : c ≠ '\t' := fun he => by rw [he] at h1; exact absurd h1 (by decide)
  have t10 : c ≠ '\n' := fun he => by rw [he] at h1; exact absurd h1 (by decide)
  have t12 : c ≠ Char.ofNat 12 := fun he => by rw [he] at h1; exact absurd h1 (by decide)
  have t13 : c ≠ Char.ofNat 13 := fun he => by rw [he] at h1; exact absurd h1 (by decide)
  rw [jsonEscapeChar, if_neg h3, if_neg h4, if_neg t8, if_neg t9, if_neg t10, if_neg t12,
    if_neg t13, if_neg (by omega)]

theorem jsonEscapeBody_safe {cs : List Char} (h : ∀ c ∈ cs, charSafe c) :
    jsonEscapeBody cs = cs := by
  induction cs with
  | nil => rfl
  | cons c rest ih =>
    rw [jsonEscapeBody, jsonEscapeChar_safe (h c (by simp)),
      ih (fun x hx => h x (List.mem_cons_of_mem c hx))]
    rfl

theorem jsonQuote_safe {s : String} (h : strSafe s) :
    jsonQuote s = '"' :: s.data ++ ['"'] := by
  rw [jsonQuote, jsonEscapeBody_safe h]

theorem parseStrBody_safe (cs : List Char) (h : ∀ c ∈ cs, charSafe c) :
    ∀ (acc rest : List Char),
      parseStrBody acc (cs ++ '"' :: rest) = some (String.mk (acc.reverse ++ cs), rest) := by
  induction cs with
  | nil =>
    intro acc rest
    rw [List.nil_append, parseStrBody.eq_def]
    dsimp only
    rw [if_pos rfl, List.append_nil]
  | cons c cs' ih =>
    intro acc rest
    obtain ⟨h1, h2, h3, h4⟩ := h c (by simp)
    rw [List.cons_append, parseStrBody.eq_def]
    dsimp only
    rw [if_neg h3, if_neg h4, if_neg (by omega),
      ih (fun x hx => h x (List.mem_cons_of_mem c hx)) (c :: acc) rest]
    rw [List.reverse_cons, List.append_assoc, List.singleton_append]

/-- Digits are safe characters. -/
theorem natSerialize_safe (v : Nat) : ∀ c ∈ natSerialize v, charSafe c := by
  have haux : ∀ fuel n, ∀ c ∈ digitsRevAux fuel n, charSafe c := by
    intro fuel
    induction fuel with
    | zero => intro n c hc; simp [digitsRevAux] at hc
    | succ f ih =>
      intro n c hc
      rw [digitsRevAux] at hc
      by_cases h : n = 0
      · rw [if_pos h] at hc
        simp at hc
      · rw [if_neg h] at hc
        rcases List.mem_cons.mp hc with hc | hc
        · subst hc
          have hd : n % 10 < 10 := Nat.mod_lt _ (by omega)
          have hv : (Char.ofNat (48 + n % 10)).toNat = 48 + n % 10 := by
            interval_cases hm : n % 10 <;> decide
          refine ⟨by omega, by omega, ?_, ?_⟩
          · intro he
            rw [he] at hv
            simp at hv
            omega
          · intro he
            rw [he] at hv
            simp at hv
            omega
        · exact ih (n / 10) c hc
  intro c hc
  rw [natSerialize] at hc
  by_cases h : v = 0
  · rw [if_pos h] at hc
    simp at hc
    subst hc
    exact ⟨by decide, by decide, by decide, by decide⟩
  · rw [if_neg h] at hc
    exact haux v v c (List.mem_reverse.mp hc)

/-!
Parsing the printed cursor object: `json.loads` inverts `json.dumps` on the
two-member cursor objects the search emits.
-/

theorem parseMembers_quote (f : Nat) (rest : List Char) :
    parseMembers (f + 1) ('"' :: rest) =
      (match parseStrBody [] rest with
       | some (key, r1) =>
         (match skipWs r1 with
          | ':' :: r2 =>
            (match parseValue f r2 with
             | some (v, r3) =>
               (match skipWs r3 with
                | ',' :: r4 => (parseMembers f r4).map (fun p => ((key, v) :: p.1, p.2))
                | '}' :: r4 => some ([(key, v)], r4)
                | _ => none)
             | none => none)
          | _ => none)
       | none => none) := by
  rw [parseMembers]
  have hsk : skipWs ('"' :: rest) = '"' :: rest := by
    rw [skipWs, if_neg (by decide)]
  rw [hsk]
  rfl

theorem parseValue_str_space (f : Nat) (cs r : List Char) (h : ∀ c ∈ cs, charSafe c) :
    parseValue (f + 1) (' ' :: '"' :: (cs ++ '"' :: r)) = some (.str (String.mk cs), r) := by
  rw [parseValue]
  have hsk : skipWs (' ' :: '"' :: (cs ++ '"' :: r)) = '"' :: (cs ++ '"' :: r) := by
    rw [skipWs, if_pos (by decide), skipWs, if_neg (by decide)]
  rw [hsk]
  show Option.map (fun p => (Json.str p.1, p.2)) (parseStrBody [] (cs ++ '"' :: r)) =
    some (Json.str (String.mk cs), r)
  rw [parseStrBody_safe cs h [] r]
  rfl

theorem parseMembers_idMember (f : Nat) (vs r : List Char) (hvs : ∀ c ∈ vs, charSafe c) :
    parseMembers (f + 1 + 1)
      (' ' :: '"' :: 'i' :: 'd' :: '"' :: ':' :: ' ' :: '"' :: (vs ++ '"' :: '}' :: r)) =
      some ([("id", .str (String.mk vs))], r) := by
  rw [parseMembers]
  have hsk : skipWs (' ' :: '"' :: 'i' :: 'd' :: '"' :: ':' :: ' ' :: '"' ::
      (vs ++ '"' :: '}' :: r)) =
      '"' :: 'i' :: 'd' :: '"' :: ':' :: ' ' :: '"' :: (vs ++ '"' :: '}' :: r) := by
    rw [skipWs, if_pos (by decide), skipWs, if_neg (by decide)]
  rw [hsk]
  show (match parseStrBody [] ('i' :: 'd' :: '"' :: ':' :: ' ' :: '"' :: (vs ++ '"' :: '}' :: r)) with
       | some (key, r1) =>
         (match skipWs r1 with
          | ':' :: r2 =>
            (match parseValue (f + 1) r2 with
             | some (v, r3) =>
               (match skipWs r3 with
                | ',' :: r4 => (parseMembers (f + 1) r4).map (fun p => ((key, v) :: p.1, p.2))
                | '}' :: r4 => some ([(key, v)], r4)
                | _ => none)
             | none => none)
          | _ => none)
       | none => none) = some ([("id", .str (String.mk vs))], r)
  have hps : parseStrBody [] ('i' :: 'd' :: '"' :: ':' :: ' ' :: '"' :: (vs ++ '"' :: '}' :: r)) =
      some ("id", ':' :: ' ' :: '"' :: (vs ++ '"' :: '}' :: r)) :=
    parseStrBody_safe ['i', 'd'] (by decide) [] (':' :: ' ' :: '"' :: (vs ++ '"' :: '}' :: r))
  rw [hps]
  dsimp only
  have hsk2 : skipWs (':' :: ' ' :: '"' :: (vs ++ '"' :: '}' :: r)) =
      ':' :: ' ' :: '"' :: (vs ++ '"' :: '}' :: r) := by
    rw [skipWs, if_neg (by decide)]
  rw [hsk2]
  show (match parseValue (f + 1) (' ' :: '"' :: (vs ++ '"' :: '}' :: r)) with
       | some (v, r3) =>
         (match skipWs r3 with
          | ',' :: r4 => (parseMembers (f + 1) r4).map (fun p => (("id", v) :: p.1, p.2))
          | '}' :: r4 => some ([("id", v)], r4)
          | _ => none)
       | none => none) = some ([("id", .str (String.mk vs))], r)
  rw [parseValue_str_space f vs ('}' :: r) hvs]
  dsimp only
  have hsk3 : skipWs ('}' :: r) = '}' :: r := by
    rw [skipWs, if_neg (by decide)]
  rw [hsk3]
  rfl

theorem parseMembers_twoMem (f : Nat) (name id : String) (v : Nat) (r : List Char)
    (hn : strSafe name) (hi : strSafe id) :
    parseMembers (f + 1 + 1 + 1)
      ('"' :: (name.data ++ '"' :: ':' :: ' ' :: '"' ::
        (natSerialize v ++ '"' :: ',' :: ' ' :: '"' :: 'i' :: 'd' :: '"' :: ':' :: ' ' :: '"' ::
          (id.data ++ '"' :: '}' :: r)))) =
      some ([(name, .str (String.mk (natSerialize v))), ("id", .str id)], r) := by
  rw [parseMembers_quote (f + 1 + 1)]
  rw [parseStrBody_safe name.data hn []
    (':' :: ' ' :: '"' :: (natSerialize v ++ '"' :: ',' :: ' ' :: '"' :: 'i' :: 'd' :: '"' ::
      ':' :: ' ' :: '"' :: (id.data ++ '"' :: '}' :: r)))]
  rw [show String.mk (([] : List Char).reverse ++ name.data) = name from rfl]
  dsimp only
  have hsk : skipWs (':' :: ' ' :: '"' :: (natSerialize v ++ '"' :: ',' :: ' ' :: '"' :: 'i' ::
      'd' :: '"' :: ':' :: ' ' :: '"' :: (id.data ++ '"' :: '}' :: r))) =
      ':' :: ' ' :: '"' :: (natSerialize v ++ '"' :: ',' :: ' ' :: '"' :: 'i' :: 'd' :: '"' ::
        ':' :: ' ' :: '"' :: (id.data ++ '"' :: '}' :: r)) := by
    rw [skipWs, if_neg (by decide)]
  rw [hsk]
  show (match parseValue (f + 1 + 1) (' ' :: '"' :: (natSerialize v ++ '"' :: ',' :: ' ' :: '"' ::
        'i' :: 'd' :: '"' :: ':' :: ' ' :: '"' :: (id.data ++ '"' :: '}' :: r))) with
       | some (v', r3) =>
         (match skipWs r3 with
          | ',' :: r4 => (parseMembers (f + 1 + 1) r4).map (fun p => ((name, v') :: p.1, p.2))
          | '}' :: r4 => some ([(name, v')], r4)
          | _ => none)
       | none => none) =
    some ([(name, .str (String.mk (natSerialize v))), ("id", .str id)], r)
  rw [parseValue_str_space (f + 1) (natSerialize v)
    (',' :: ' ' :: '"' :: 'i' :: 'd' :: '"' :: ':' :: ' ' :: '"' :: (id.data ++ '"' :: '}' :: r))
    (natSerialize_safe v)]
  dsimp only
  have hsk2 : skipWs (',' :: ' ' :: '"' :: 'i' :: 'd' :: '"' :: ':' :: ' ' :: '"' ::
      (id.data ++ '"' :: '}' :: r)) =
      ',' :: ' ' :: '"' :: 'i' :: 'd' :: '"' :: ':' :: ' ' :: '"' ::
        (id.data ++ '"' :: '}' :: r) := by
    rw [skipWs, if_neg (by decide)]
  rw [hsk2]
  show (parseMembers (f + 1 + 1) (' ' :: '"' :: 'i' :: 'd' :: '"' :: ':' :: ' ' :: '"' ::
      (id.data ++ '"' :: '}' :: r))).map
      (fun p => ((name, Json.str (String.mk (natSerialize v))) :: p.1, p.2)) =
    some ([(name, .str (String.mk (natSerialize v))), ("id", .str id)], r)
  rw [parseMembers_idMember f id.data r hi]
  rfl

theorem parseValue_obj (f : Nat) (rest : List Char) (ms : List (String × Json)) (r : List Char)
    (hq : skipWs rest = rest) (hne : ∀ rest', rest ≠ '}' :: rest')
    (hm : parseMembers f rest = some (ms, r)) :
    parseValue (f + 1) ('{' :: rest) = some (.obj ms, r) := by
  rw [parseValue]
  have hsk : skipWs ('{' :: rest) = '{' :: rest := by
    rw [skipWs, if_neg (by decide)]
  rw [hsk]
  show (match skipWs rest with
       | '}' :: rest' => some (Json.obj [], rest')
       | _ => Option.map (fun p => (Json.obj p.1, p.2)) (parseMembers f (skipWs rest))) =
    some (Json.obj ms, r)
  rw [hq]
  split
  all_goals try (rw [hm]; rfl)
  exact absurd rfl (hne _)

theorem jsonDumpsCursor_eq (name id : String) (v : Nat)
    (hn : strSafe name) (hi : strSafe id) :
    jsonDumpsCursor name v id =
      '{' :: '"' :: (name.data ++ '"' :: ':' :: ' ' :: '"' ::
        (natSerialize v ++ '"' :: ',' :: ' ' :: '"' :: 'i' :: 'd' :: '"' :: ':' :: ' ' :: '"' ::
          (id.data ++ '"' :: '}' :: []))) := by
  have hval : strSafe (String.mk (natSerialize v)) := fun c hc => natSerialize_safe v c hc
  have hidlit : strSafe "id" := by decide
  rw [jsonDumpsCursor, jsonQuote_safe hn, jsonQuote_safe hval, jsonQuote_safe hidlit,
    jsonQuote_safe hi]
  rw [show ("id" : String).data = ['i', 'd'] from rfl,
    show (String.mk (natSerialize v)).data = natSerialize v from rfl]
  simp [List.append_assoc]

theorem parseValue_dumpsCursor (f : Nat) (name id : String) (v : Nat)
    (hn : strSafe name) (hi : strSafe id) :
    parseValue (f + 1 + 1 + 1 + 1) (jsonDumpsCursor name v id) =
      some (.obj [(name, .str (String.mk (natSerialize v))), ("id", .str id)], []) := by
  rw [jsonDumpsCursor_eq name id v hn hi]
  exact parseValue_obj (f + 1 + 1 + 1) _ _ _
    (by rw [skipWs, if_neg (by decide)])
    (fun rest' h => by simp at h)
    (parseMembers_twoMem f name id v [] hn hi)


/-! The decode-encode cursor round trip. -/

theorem utf8Encode_lt (cs : List Char) (h : ∀ c ∈ cs, c.toNat < 0x80) :
    ∀ b ∈ utf8Encode cs, b < 256 := by
  induction cs with
  | nil => simp [utf8Encode]
  | cons c rest ih =>
    intro b hb
    rw [utf8Encode, utf8EncodeChar, if_pos (h c (by simp))] at hb
    rcases List.mem_append.1 hb with h1 | h2
    · rw [List.mem_singleton.1 h1]
      exact Nat.lt_trans (h c (by simp)) (by decide)
    · exact ih (fun x hx => h x (List.mem_cons_of_mem c hx)) b h2

theorem jsonDumpsCursor_ascii (name id : String) (v : Nat)
    (hn : strSafe name) (hi : strSafe id) :
    ∀ c ∈ jsonDumpsCursor name v id, c.toNat < 0x80 := by
  intro c hc
  rw [jsonDumpsCursor_eq name id v hn hi] at hc
  simp only [List.mem_cons, List.mem_append] at hc
  casesm* _ ∨ _
  all_goals first
    | (rename_i h; subst h; decide)
    | (rename_i h; exact Nat.lt_trans (hn _ h).2.1 (by decide))
    | (rename_i h; exact Nat.lt_trans (hi _ h).2.1 (by decide))
    | (rename_i h; exact Nat.lt_trans (natSerialize_safe v _ h).2.1 (by decide))
    | (rename_i h; exact absurd h (List.not_mem_nil c))

theorem decodeCursor_encodeCursor (name id : String) (v : Nat)
    (hn : strSafe name) (hi : strSafe id) (hne : name ≠ "id") :
    decodeCursor name (encodeCursor name v id) = .ok (v, id) := by
  have hascii := jsonDumpsCursor_ascii name id v hn hi
  have hbytes := utf8Encode_lt _ hascii
  rw [decodeCursor]
  rw [show (encodeCursor name v id).data =
      b64EncodeChars (utf8Encode (jsonDumpsCursor name v id)) from rfl]
  rw [b64Decode_b64Encode _ hbytes]
  dsimp only
  rw [utf8Decode_utf8Encode _ hascii]
  dsimp only
  rw [jsonLoads]
  rw [show (String.mk (jsonDumpsCursor name v id)).data = jsonDumpsCursor name v id from rfl]
  have h3 : 3 ≤ (jsonDumpsCursor name v id).length := by
    rw [jsonDumpsCursor_eq name id v hn hi]
    simp [List.length_cons, List.length_append]
    omega
  obtain ⟨f, hf⟩ : ∃ f, (jsonDumpsCursor name v id).length + 1 = f + 1 + 1 + 1 + 1 :=
    ⟨(jsonDumpsCursor name v id).length - 3, by omega⟩
  rw [hf, parseValue_dumpsCursor f name id v hn hi]
  dsimp only
  rw [if_pos (show skipWs ([] : List Char) = [] from rfl)]
  dsimp only
  have hc1 : jsonContains
      (Json.obj [(name, .str (String.mk (natSerialize v))), ("id", .str id)]) name = .ok true := by
    simp [jsonContains]
  have hc2 : jsonContains
      (Json.obj [(name, .str (String.mk (natSerialize v))), ("id", .str id)]) "id" = .ok true := by
    simp [jsonContains]
  rw [hc1]
  dsimp only
  rw [hc2]
  dsimp only
  rw [if_neg (by simp)]
  have hBid : (("id" : String) == name) = false := by
    rw [beq_eq_false_iff_ne]
    exact fun h => hne h.symm
  have hBname2 : (name == ("id" : String)) = false := by
    rw [beq_eq_false_iff_ne]
    exact hne
  have hi1 : jsonIndex
      (Json.obj [(name, .str (String.mk (natSerialize v))), ("id", .str id)]) name =
      .ok (.str (String.mk (natSerialize v))) := by
    simp [jsonIndex, hBid]
    rw [if_neg (fun h => hne h.symm)]
  rw [hi1]
  dsimp only
  have hiso : fromisoformat (String.mk (natSerialize v)) = .ok v := by
    rw [fromisoformat]
    rw [show (String.mk (natSerialize v)).data = natSerialize v from rfl]
    rw [natParse_natSerialize]
  rw [hiso]
  dsimp only
  have hi2 : jsonIndex
      (Json.obj [(name, .str (String.mk (natSerialize v))), ("id", .str id)]) "id" =
      .ok (.str id) := by
    simp [jsonIndex, hBname2]
  rw [hi2]

/-! Evaluating one search call against the fixed sorted table. -/

/-- The rows matching the non-cursor `WHERE` clauses. -/
def matchingRows (db : DB) (org : String) (uid : Option String) (ft : Option Tags)
    (tr : Option TimeRange) : List RawMem :=
  db.memories.filter (searchFilter org uid ft tr)

/-- The matching rows in `ORDER BY (sort_field, id)` order. -/
def sortedRows (asc : Bool) (sf : SortField) (db : DB) (org : String) (uid : Option String)
    (ft : Option Tags) (tr : Option TimeRange) : List RawMem :=
  List.insertionSort (sortRel asc sf) (matchingRows db org uid ft tr)

/-- The page and next-cursor the search builds from the sorted, cursor-filtered
row list. -/
def pageOf (sf : SortField) (name : String) (lim : Nat) (l : List RawMem) :
    List RawMem × Option String :=
  let items := l.take (lim + 1)
  let hasMore := lim < items.length
  let page := if hasMore then items.take lim else items
  let next_cursor :=
    if hasMore ∧ page ≠ [] then
      match page.getLast? with
      | some last => some (encodeCursor name (sortVal sf last) last.id)
      | none => none
    else none
  (page, next_cursor)

/-- The paging loop of the spec's P9 scenario: call the search, follow
`next_cursor`, concatenate the pages. -/
def collectPages : Nat → DB → String → Option String → Option Tags → String →
    Option String → Option TimeRange → Nat → Except Err (List RawMem)
  | 0, _, _, _, _, _, _, _, _ => .error (.valueError "page limit exceeded")
  | fuel + 1, db, org, uid, ft, sort, cursor, tr, limit =>
    match search_raw_memories db org uid ft sort cursor tr limit with
    | .error e => .error e
    | .ok (page, none) => .ok page
    | .ok (page, some c) =>
      match collectPages fuel db org uid ft sort (some c) tr limit with
      | .error e => .error e
      | .ok rest => .ok (page ++ rest)

theorem b64EncodeChars_ne_nil (b : Nat) (rest : List Nat) : b64EncodeChars (b :: rest) ≠ [] := by
  rcases rest with _ | ⟨b2, _ | ⟨b3, rest3⟩⟩ <;> simp [b64EncodeChars]

theorem encodeCursor_ne_empty (name : String) (v : Nat) (id : String) :
    encodeCursor name v id ≠ "" := by
  intro h
  have hd : b64EncodeChars (utf8Encode (jsonDumpsCursor name v id)) = [] :=
    congrArg String.data h
  have hj : jsonDumpsCursor name v id =
      '{' :: ((jsonQuote name ++ ':' :: ' ' :: jsonQuote (String.mk (natSerialize v)) ++
        ',' :: ' ' :: jsonQuote "id" ++ ':' :: ' ' :: jsonQuote id) ++ ['}']) := rfl
  rw [hj, utf8Encode, utf8EncodeChar, if_pos (by decide), List.singleton_append] at hd
  exact b64EncodeChars_ne_nil _ _ hd

theorem sortFieldOfName_props {n : String} {sf : SortField}
    (h : sortFieldOfName n = some sf) : strSafe n ∧ n ≠ "id" := by
  unfold sortFieldOfName at h
  split_ifs at h with h1 h2 h3
  · subst h1; exact ⟨by decide, by decide⟩
  · subst h2; exact ⟨by decide, by decide⟩
  · subst h3; exact ⟨by decide, by decide⟩

theorem search_no_cursor (db : DB) (org : String) (uid : Option String) (ft : Option Tags)
    (tr : Option TimeRange) (sort : String) (limit : Nat) (sf : SortField)
    (hsf : sortFieldOfName (lstripDashes sort) = some sf) :
    search_raw_memories db org uid ft sort none tr limit =
      .ok (pageOf sf (lstripDashes sort) (min limit 100)
        (sortedRows (sortAscending sort) sf db org uid ft tr)) := by
  unfold search_raw_memories
  dsimp only
  rw [hsf]
  dsimp only
  have hfil : (fun m => searchFilter org uid ft tr m &&
      (match (none : Option (Nat × String)) with
       | some vc => cursorPred (sortAscending sort) sf vc.1 vc.2 m
       | none => true)) = (fun m => searchFilter org uid ft tr m) := by
    funext m
    exact Bool.and_true _
  rw [hfil]
  rfl

theorem search_at_cursor (db : DB) (org : String) (uid : Option String) (ft : Option Tags)
    (tr : Option TimeRange) (sort : String) (limit : Nat) (sf : SortField) (x : RawMem)
    (hsf : sortFieldOfName (lstripDashes sort) = some sf)
    (hnd : (db.memories.map RawMem.id).Nodup)
    (hxid : strSafe x.id) :
    search_raw_memories db org uid ft sort
        (some (encodeCursor (lstripDashes sort) (sortVal sf x) x.id)) tr limit =
      .ok (pageOf sf (lstripDashes sort) (min limit 100)
        ((sortedRows (sortAscending sort) sf db org uid ft tr).filter
          (cursorPred (sortAscending sort) sf (sortVal sf x) x.id))) := by
  obtain ⟨hns, hnid⟩ := sortFieldOfName_props hsf
  unfold search_raw_memories
  dsimp only
  rw [hsf]
  dsimp only
  rw [if_neg (encodeCursor_ne_empty _ _ _)]
  rw [decodeCursor_encodeCursor (lstripDashes sort) x.id (sortVal sf x) hns hxid hnid]
  dsimp only [Except.map]
  have hndf : ((db.memories.filter (fun m => searchFilter org uid ft tr m)).map
      RawMem.id).Nodup :=
    ((List.filter_sublist db.memories).map RawMem.id).nodup hnd
  have hff : db.memories.filter (fun m => searchFilter org uid ft tr m &&
      cursorPred (sortAscending sort) sf (sortVal sf x) x.id m) =
      (db.memories.filter (fun m => searchFilter org uid ft tr m)).filter
        (cursorPred (sortAscending sort) sf (sortVal sf x) x.id) := by
    rw [List.filter_filter]
    exact List.filter_congr (fun m _ => Bool.and_comm _ _)
  rw [hff]
  rw [insertionSort_filter_comm (sortAscending sort) sf
    (cursorPred (sortAscending sort) sf (sortVal sf x) x.id) _ hndf]
  rfl

/-! Following `next_cursor` exhausts the sorted matching rows. -/

theorem collectPages_suffix (db : DB) (org : String) (uid : Option String) (ft : Option Tags)
    (tr : Option TimeRange) (sort : String) (limit : Nat) (sf : SortField)
    (hsf : sortFieldOfName (lstripDashes sort) = some sf)
    (hlim : 0 < limit)
    (hnd : (db.memories.map RawMem.id).Nodup)
    (hsafe : ∀ m ∈ db.memories, strSafe m.id) :
    ∀ (fuel : Nat) (cursor : Option String) (l₁ l₂ : List RawMem),
      sortedRows (sortAscending sort) sf db org uid ft tr = l₁ ++ l₂ →
      search_raw_memories db org uid ft sort cursor tr limit =
        .ok (pageOf sf (lstripDashes sort) (min limit 100) l₂) →
      l₂.length < fuel →
      collectPages fuel db org uid ft sort cursor tr limit = .ok l₂ := by
  have hndS : ((sortedRows (sortAscending sort) sf db org uid ft tr).map RawMem.id).Nodup :=
    ((List.perm_insertionSort (sortRel (sortAscending sort) sf)
        (matchingRows db org uid ft tr)).map RawMem.id).nodup_iff.mpr
      (((List.filter_sublist db.memories).map RawMem.id).nodup hnd)
  have hpw : (sortedRows (sortAscending sort) sf db org uid ft tr).Pairwise
      (fun a b => keyLt (sortAscending sort) (sortKey sf a) (sortKey sf b)) :=
    pairwise_keyLt_of_sorted (List.sorted_insertionSort _ _) hndS
  have hmemdb : ∀ y ∈ sortedRows (sortAscending sort) sf db org uid ft tr, y ∈ db.memories :=
    fun y hy => List.mem_of_mem_filter
      ((List.perm_insertionSort (sortRel (sortAscending sort) sf)
        (matchingRows db org uid ft tr)).mem_iff.mp hy)
  intro fuel
  induction fuel with
  | zero =>
    intro _ _ _ _ _ h
    omega
  | succ fuel ih =>
    intro cursor l₁ l₂ hsplit hsearch hfuel
    rw [collectPages, hsearch]
    by_cases hmore : min limit 100 < l₂.length
    · have hl1 : 0 < min limit 100 := by omega
      have hne : l₂.take (min limit 100) ≠ [] := by
        apply List.ne_nil_of_length_pos
        rw [List.length_take]
        omega
      have hgl : (l₂.take (min limit 100)).getLast? =
          some ((l₂.take (min limit 100)).getLast hne) := List.getLast?_eq_getLast _ hne
      have hlen : (l₂.take (min limit 100 + 1)).length = min limit 100 + 1 := by
        rw [List.length_take]
        omega
      have htt : (l₂.take (min limit 100 + 1)).take (min limit 100) =
          l₂.take (min limit 100) := by
        rw [List.take_take]
        congr 1
        omega
      have hpage : pageOf sf (lstripDashes sort) (min limit 100) l₂ =
          (l₂.take (min limit 100),
           some (encodeCursor (lstripDashes sort)
             (sortVal sf ((l₂.take (min limit 100)).getLast hne))
             ((l₂.take (min limit 100)).getLast hne).id)) := by
        unfold pageOf
        dsimp only
        rw [hlen, if_pos (Nat.lt_succ_self (min limit 100)), htt,
          if_pos ⟨Nat.lt_succ_self (min limit 100), hne⟩, hgl]
      rw [hpage]
      dsimp only
      -- the element the returned cursor points at
      have hlastS : (l₂.take (min limit 100)).getLast hne ∈
          sortedRows (sortAscending sort) sf db org uid ft tr := by
        rw [hsplit]
        exact List.mem_append_right l₁
          ((List.take_sublist _ _).mem (List.getLast_mem hne))
      have hlastid : strSafe ((l₂.take (min limit 100)).getLast hne).id :=
        hsafe _ (hmemdb _ hlastS)
      have hsplitCons : sortedRows (sortAscending sort) sf db org uid ft tr =
          (l₁ ++ (l₂.take (min limit 100)).dropLast) ++
            (l₂.take (min limit 100)).getLast hne :: l₂.drop (min limit 100) := by
        rw [hsplit]
        conv_lhs => rw [← List.take_append_drop (min limit 100) l₂,
          ← List.dropLast_append_getLast hne]
        simp [List.append_assoc]
      have hfc : (sortedRows (sortAscending sort) sf db org uid ft tr).filter
          (cursorPred (sortAscending sort) sf
            (sortVal sf ((l₂.take (min limit 100)).getLast hne))
            ((l₂.take (min limit 100)).getLast hne).id) = l₂.drop (min limit 100) := by
        rw [hsplitCons]
        exact filter_cursorPred_of_split _ _ _ _ _ (hsplitCons ▸ hpw)
      have hsearch2 := search_at_cursor db org uid ft tr sort limit sf
        ((l₂.take (min limit 100)).getLast hne) hsf hnd hlastid
      rw [hfc] at hsearch2
      have hsplitSuf : sortedRows (sortAscending sort) sf db org uid ft tr =
          (l₁ ++ l₂.take (min limit 100)) ++ l₂.drop (min limit 100) := by
        rw [hsplit, List.append_assoc, List.take_append_drop]
      have hfuel2 : (l₂.drop (min limit 100)).length < fuel := by
        rw [List.length_drop]
        omega
      rw [ih _ _ _ hsplitSuf hsearch2 hfuel2]
      dsimp only
      rw [List.take_append_drop]
    · have hpage : pageOf sf (lstripDashes sort) (min limit 100) l₂ = (l₂, none) := by
        unfold pageOf
        dsimp only
        have hitems : l₂.take (min limit 100 + 1) = l₂ :=
          List.take_of_length_le (by omega)
        rw [hitems, if_neg hmore, if_neg (fun hc => hmore hc.1)]
      rw [hpage]

/-! ## C2 -/

/-- A matching record with the latest timestamp. -/
def mPag1 : RawMem :=
  { memX with
    id := "raw_mem_a"
    created_at := 7
    updated_at := 7
    occurred_at := 7
    last_modify_timestamp := 7 }

/-- A matching record with the earliest timestamp. -/
def mPag2 : RawMem :=
  { memX with
    id := "raw_mem_b"
    created_at := 3
    updated_at := 3
    occurred_at := 3
    last_modify_timestamp := 3 }

/-- A matching record with the middle timestamp. -/
def mPag3 : RawMem :=
  { memX with
    id := "raw_mem_c"
    created_at := 5
    updated_at := 5
    occurred_at := 5
    last_modify_timestamp := 5 }

/-- A store with three matching records, listed out of `created_at` order. -/
def dbPag : DB :=
  { users := [autoUser "user-1" actorA], memories := [mPag1, mPag2, mPag3] }

/-- C2: for every table with pairwise-distinct, printable ids, every matching
filter, every accepted sort and every page size `k ≥ 1`, repeatedly calling
`search_raw_memories` with `limit = k` and following `next_cursor` until it is
`None` yields exactly the matching records, each exactly once, in
`(sort_field, id)` order in the sort's direction; and every page after a cursor
is drawn from the rows selected by the compound predicate
`(sort_field beyond cursor value) OR (sort_field = cursor value AND id beyond
cursor id)` applied to the fixed sorted table. -/
theorem search_pagination_complete (db : DB) (org : String) (uid : Option String)
    (ft : Option Tags) (tr : Option TimeRange) (sort : String) (limit : Nat) (sf : SortField)
    (hsf : sortFieldOfName (lstripDashes sort) = some sf)
    (hlim : 0 < limit)
    (hnd : (db.memories.map RawMem.id).Nodup)
    (hsafe : ∀ m ∈ db.memories, strSafe m.id) :
    collectPages (db.memories.length + 1) db org uid ft sort none tr limit =
        .ok (sortedRows (sortAscending sort) sf db org uid ft tr) ∧
    (sortedRows (sortAscending sort) sf db org uid ft tr).Perm
        (matchingRows db org uid ft tr) ∧
    ((sortedRows (sortAscending sort) sf db org uid ft tr).map RawMem.id).Nodup ∧
    List.Sorted (sortRel (sortAscending sort) sf)
        (sortedRows (sortAscending sort) sf db org uid ft tr) ∧
    (∀ l₁ x l₂,
      sortedRows (sortAscending sort) sf db org uid ft tr = l₁ ++ x :: l₂ →
      search_raw_memories db org uid ft sort
          (some (encodeCursor (lstripDashes sort) (sortVal sf x) x.id)) tr limit =
        .ok (pageOf sf (lstripDashes sort) (min limit 100)
          ((sortedRows (sortAscending sort) sf db org uid ft tr).filter
            (cursorPred (sortAscending sort) sf (sortVal sf x) x.id)))) := by
  have hndS : ((sortedRows (sortAscending sort) sf db org uid ft tr).map RawMem.id).Nodup :=
    ((List.perm_insertionSort (sortRel (sortAscending sort) sf)
        (matchingRows db org uid ft tr)).map RawMem.id).nodup_iff.mpr
      (((List.filter_sublist db.memories).map RawMem.id).nodup hnd)
  have hmemdb : ∀ y ∈ sortedRows (sortAscending sort) sf db org uid ft tr, y ∈ db.memories :=
    fun y hy => List.mem_of_mem_filter
      ((List.perm_insertionSort (sortRel (sortAscending sort) sf)
        (matchingRows db org uid ft tr)).mem_iff.mp hy)
  refine ⟨?_, List.perm_insertionSort _ _, hndS, List.sorted_insertionSort _ _, ?_⟩
  · apply collectPages_suffix db org uid ft tr sort limit sf hsf hlim hnd hsafe
      (db.memories.length + 1) none [] _ (by rw [List.nil_append])
      (search_no_cursor db org uid ft tr sort limit sf hsf)
    have h1 : (sortedRows (sortAscending sort) sf db org uid ft tr).length =
        (matchingRows db org uid ft tr).length :=
      (List.perm_insertionSort _ _).length_eq
    have h2 : (matchingRows db org uid ft tr).length ≤ db.memories.length :=
      List.length_filter_le _ _
    omega
  · intro l₁ x l₂ hsplit
    have hx : x ∈ sortedRows (sortAscending sort) sf db org uid ft tr := by
      rw [hsplit]
      simp
    exact search_at_cursor db org uid ft tr sort limit sf x hsf hnd (hsafe x (hmemdb x hx))

theorem search_pagination_complete_witness :
    collectPages 4 dbPag "org-1" none none "created_at" none none 1 =
      .ok [mPag2, mPag3, mPag1] :=
  (search_pagination_complete dbPag "org-1" none none none "created_at" 1 .created_at rfl
    (by decide) (by decide) (by decide)).1

/-- With page size `0` the loop terminates at once and yields none of the
three matching records: the original claim's "every page size k" fails at
`k = 0`. -/
theorem search_pagination_complete_counterexample :
    matchingRows dbPag "org-1" none none none = [mPag1, mPag2, mPag3] ∧
    collectPages 4 dbPag "org-1" none none "created_at" none none 0 = .ok [] :=
  ⟨rfl, rfl⟩

end Mirix
